import Mathlib

/-!
Shallow embedding of `src/src/h235/h235crypto.cxx` (H323Plus H.235 media
crypto): the ciphertext-stealing codec (`EVP_EncryptUpdate_cts`,
`EVP_EncryptFinal_cts`, `EVP_DecryptUpdate_cts`, `EVP_DecryptFinal_cts`), the
relaxed final-block decoder (`EVP_DecryptFinal_relaxed`), the IV derivation
(`H235CryptoEngine::SetIV`), the cipher engine (`H235CryptoEngine`) and the
media session (`H235Session`).

Bytes are modelled as `Nat` (all byte values produced stay below 256; no
claim depends on wrap-around).  The AES one-block transform is an external
primitive and is kept abstract as a pair of functions; CBC chaining, which the
in-repository ciphertext-stealing code manipulates explicitly through
`ctx->iv`, is modelled concretely.  The OpenSSL `EVP_EncryptUpdate`,
`EVP_EncryptFinal_ex` and `EVP_DecryptUpdate` entry points used by the
standard (non-CTS) paths are external library functions and are modelled
after their documented 1.0-era behaviour.
-/

namespace H235

/-- `OID_AES256` (line 51; the `H323_H235_AES256` build option is taken as
enabled, as the spec lists AES256 among the supported algorithms). -/
def OID_AES256 : String := "2.16.840.1.101.3.4.1.42"

/-- `OID_AES192` (line 53). -/
def OID_AES192 : String := "2.16.840.1.101.3.4.1.22"

/-- `OID_AES128` (line 54). -/
def OID_AES128 : String := "2.16.840.1.101.3.4.1.2"

/-- The IV sequence is always 6 bytes long (2 bytes seq number + 4 bytes
timestamp) — line 57. -/
def IV_SEQUENCE_LEN : Nat := 6

/-- Pointwise xor of two byte buffers (models the explicit xor loops of the
CBC ciphertext-stealing decode and the CBC chaining of the block cipher). -/
def xorB (a b : List Nat) : List Nat := List.zipWith (fun x y => x ^^^ y) a b

/-- Cipher mode as reported by `EVP_CIPHER_CTX_mode`. -/
inductive CipherMode
  | ecb
  | cbc
  | other
deriving DecidableEq

/-- Model of `EVP_CIPHER`: block size, mode, and the raw one-block
transforms.  The AES block permutation itself is external to the repository
(consumed as an opaque primitive), so `enc`/`dec` are abstract here. -/
structure EVP_CIPHER where
  block_size : Nat
  mode : CipherMode
  enc : List Nat → List Nat
  dec : List Nat → List Nat

/-- Model of `EVP_CIPHER_CTX`: the fields the code under `src/` reads and
writes.  `buf` carries `buf_len` as its length; `finalBlk` is `ctx->final`. -/
structure EVP_CIPHER_CTX where
  cipher : EVP_CIPHER
  encryptDir : Bool
  pad : Bool
  iv : List Nat
  buf : List Nat
  finalBlk : List Nat
  final_used : Bool

/-- One application of the underlying block transform
(`ctx->cipher->do_cipher` on a single block): CBC chains through the context
IV (encrypt: out = E(in xor iv), iv := out; decrypt: out = D(in) xor iv,
iv := in), ECB leaves the IV alone.  The engine never ciphers in the
unsupported `other` mode (the CTS finals reject it first); its value here is
immaterial to every claim. -/
def blockStep (ci : EVP_CIPHER) (dir : Bool) (iv blk : List Nat) : List Nat × List Nat :=
  match ci.mode, dir with
  | .cbc, true => let c := ci.enc (xorB blk iv); (c, c)
  | .cbc, false => (xorB (ci.dec blk) iv, blk)
  | .ecb, true => (ci.enc blk, iv)
  | .ecb, false => (ci.dec blk, iv)
  | .other, _ => (blk, iv)

/-- `do_cipher` over `n` consecutive blocks, threading the IV. -/
def doCipherAux (ci : EVP_CIPHER) (dir : Bool) : Nat → List Nat → List Nat → List Nat × List Nat
  | 0, iv, _ => ([], iv)
  | n + 1, iv, input =>
      let p := blockStep ci dir iv (input.take ci.block_size)
      let q := doCipherAux ci dir n p.2 (input.drop ci.block_size)
      (p.1 ++ q.1, q.2)

/-- `ctx->cipher->do_cipher(ctx, out, in, inl)`: processes
`inl / block_size` blocks and updates the context IV (callers always pass a
multiple of the block size; a zero-length call leaves the context alone). -/
def do_cipher (ctx : EVP_CIPHER_CTX) (input : List Nat) : List Nat × EVP_CIPHER_CTX :=
  ((doCipherAux ctx.cipher ctx.encryptDir (input.length / ctx.cipher.block_size) ctx.iv input).1,
   { ctx with
       iv := (doCipherAux ctx.cipher ctx.encryptDir (input.length / ctx.cipher.block_size)
         ctx.iv input).2 })

/-- `EVP_EncryptUpdate_cts` (lines 62-130).  `inl & ctx->block_mask` is
written `&&& (bl - 1)` (`block_mask` is `block_size - 1`). -/
def EVP_EncryptUpdate_cts (ctx : EVP_CIPHER_CTX) (input : List Nat) : List Nat × EVP_CIPHER_CTX :=
  let bl := ctx.cipher.block_size
  if ctx.buf.length + input.length ≤ bl then
    ([], { ctx with buf := ctx.buf ++ input })
  else
    let e1 :=
      if ctx.final_used then
        let p := do_cipher ctx ctx.finalBlk
        (p.1, { p.2 with final_used := false })
      else (([] : List Nat), ctx)
    let out1 := e1.1
    let ctx1 := e1.2
    let fill := bl - ctx1.buf.length
    let bufFull := ctx1.buf ++ input.take fill
    let rest := input.drop fill
    if rest.length ≤ bl then
      (out1, { ctx1 with finalBlk := bufFull, final_used := true, buf := rest })
    else
      let p2 := do_cipher ctx1 bufFull
      let leftover := rest.length &&& (bl - 1)
      if leftover ≠ 0 then
        let inl2 := rest.length - (bl + leftover)
        let p3 := do_cipher p2.2 (rest.take inl2)
        (out1 ++ p2.1 ++ p3.1,
         { p3.2 with buf := (rest.drop (inl2 + bl)).take leftover,
                     finalBlk := (rest.drop inl2).take bl,
                     final_used := true })
      else
        let inl2 := rest.length - 2 * bl
        let p3 := do_cipher p2.2 (rest.take inl2)
        (out1 ++ p2.1 ++ p3.1,
         { p3.2 with buf := (rest.drop (inl2 + bl)).take bl,
                     finalBlk := (rest.drop inl2).take bl,
                     final_used := true })

/-- Error kinds of the ciphertext-stealing codec (the C functions only
return 0 after a trace; the two distinguishable failure branches are the
missing-state checks and the unsupported-mode default). -/
inductive CtsError
  | missingState
  | unsupportedMode
deriving DecidableEq

/-- `EVP_EncryptFinal_cts` (lines 132-195). -/
def EVP_EncryptFinal_cts (ctx : EVP_CIPHER_CTX) : Except CtsError (List Nat × EVP_CIPHER_CTX) :=
  let bl := ctx.cipher.block_size
  if !ctx.final_used then .error .missingState
  else if ctx.buf.length = 0 then .error .missingState
  else
    let leftover := ctx.buf.length
    match ctx.cipher.mode with
    | .ecb =>
        let p1 := do_cipher ctx ctx.finalBlk
        let tmp := p1.1
        let bufFull := ctx.buf ++ (tmp.drop leftover).take (bl - leftover)
        let p2 := do_cipher p1.2 bufFull
        .ok (p2.1 ++ tmp.take leftover, p2.2)
    | .cbc =>
        let p1 := do_cipher ctx ctx.finalBlk
        let tmp := p1.1
        let bufFull := ctx.buf ++ List.replicate (bl - leftover) 0
        let p2 := do_cipher p1.2 bufFull
        .ok (p2.1 ++ tmp.take leftover, p2.2)
    | .other => .error .unsupportedMode

/-- `EVP_DecryptUpdate_cts` (lines 197-201): delegates to
`EVP_EncryptUpdate_cts`. -/
def EVP_DecryptUpdate_cts (ctx : EVP_CIPHER_CTX) (input : List Nat) : List Nat × EVP_CIPHER_CTX :=
  EVP_EncryptUpdate_cts ctx input

/-- `EVP_DecryptFinal_cts` (lines 203-287).  In the CBC branch the context
IV (saved first as `C_n_minus_2`) is the ciphertext block two positions
back; `do_cipher` on the decrypt context already xors with the running IV,
which the code then cancels explicitly, exactly as the source does. -/
def EVP_DecryptFinal_cts (ctx : EVP_CIPHER_CTX) : Except CtsError (List Nat × EVP_CIPHER_CTX) :=
  let bl := ctx.cipher.block_size
  if !ctx.final_used then .error .missingState
  else if ctx.buf.length = 0 then .error .missingState
  else
    let leftover := ctx.buf.length
    match ctx.cipher.mode with
    | .ecb =>
        let p1 := do_cipher ctx ctx.finalBlk
        let tmp := p1.1
        let bufFull := ctx.buf ++ (tmp.drop leftover).take (bl - leftover)
        let p2 := do_cipher p1.2 bufFull
        .ok (p2.1 ++ tmp.take leftover, p2.2)
    | .cbc =>
        let Cnm2 := ctx.iv
        let bufPadded := ctx.buf ++ List.replicate (bl - leftover) 0
        let p1 := do_cipher ctx ctx.finalBlk
        let tmp2 := xorB (xorB p1.1 Cnm2) bufPadded
        let bufFull := ctx.buf ++ (tmp2.drop leftover).take (bl - leftover)
        let p2 := do_cipher p1.2 bufFull
        let outBlk := xorB (xorB p2.1 ctx.finalBlk) Cnm2
        .ok (outBlk ++ tmp2.take leftover, p2.2)
    | .other => .error .unsupportedMode

/-- Error kinds of `EVP_DecryptFinal_relaxed` (lines 289-339): the three
distinguishable failure branches of the C function. -/
inductive RelaxedError
  | dataNotMultiple
  | wrongFinalLength
  | badPadding
deriving DecidableEq

/-- `EVP_DecryptFinal_relaxed` (lines 289-339): trusts the padding-length
byte `final[b-1]`; the per-byte padding-value check is commented out in the
source (Polycom interoperability), so only `n == 0 || n > b` is rejected. -/
def EVP_DecryptFinal_relaxed (ctx : EVP_CIPHER_CTX) : Except RelaxedError (List Nat) :=
  let b := ctx.cipher.block_size
  if !ctx.pad then
    if ctx.buf.length ≠ 0 then .error .dataNotMultiple
    else .ok []
  else if b > 1 then
    if ctx.buf.length ≠ 0 ∨ !ctx.final_used then .error .wrongFinalLength
    else
      let n := ctx.finalBlk.getD (b - 1) 0
      if n = 0 ∨ n > b then .error .badPadding
      else .ok (ctx.finalBlk.take (b - n))
  else .ok []

/-- Model of the external OpenSSL `EVP_EncryptUpdate` (1.0-era generic
implementation): tops up a pending partial block, ciphers every whole block,
and buffers the remainder. -/
def EVP_EncryptUpdate (ctx : EVP_CIPHER_CTX) (input : List Nat) : List Nat × EVP_CIPHER_CTX :=
  let bl := ctx.cipher.block_size
  if ctx.buf.length ≠ 0 ∧ ctx.buf.length + input.length < bl then
    ([], { ctx with buf := ctx.buf ++ input })
  else
    let e1 :=
      if ctx.buf.length ≠ 0 then
        let j := bl - ctx.buf.length
        let p := do_cipher ctx (ctx.buf ++ input.take j)
        (p.1, { p.2 with buf := ([] : List Nat) }, input.drop j)
      else (([] : List Nat), ctx, input)
    let out1 := e1.1
    let ctx1 := e1.2.1
    let rest := e1.2.2
    let i := rest.length &&& (bl - 1)
    let p2 := do_cipher ctx1 (rest.take (rest.length - i))
    (out1 ++ p2.1, { p2.2 with buf := rest.drop (rest.length - i) })

/-- Failure of the external padded final (data not a multiple of the block
length with padding disabled). -/
inductive PadError
  | dataNotMultiple
deriving DecidableEq

/-- Model of the external OpenSSL `EVP_EncryptFinal_ex`: with padding
disabled it requires an empty buffer and emits nothing; with padding enabled
it PKCS-pads the pending partial block and emits one block. -/
def EVP_EncryptFinal_ex (ctx : EVP_CIPHER_CTX) : Except PadError (List Nat × EVP_CIPHER_CTX) :=
  let bl := ctx.cipher.block_size
  if !ctx.pad then
    if ctx.buf.length ≠ 0 then .error .dataNotMultiple
    else .ok ([], ctx)
  else if bl > 1 then
    let n := bl - ctx.buf.length
    let p := do_cipher ctx (ctx.buf ++ List.replicate n n)
    .ok (p.1, { p.2 with buf := [] })
  else .ok ([], ctx)

/-- Model of the external OpenSSL `EVP_DecryptUpdate`: with padding disabled
it is `EVP_EncryptUpdate` on the decrypt context; with padding enabled it
first releases a previously held-back block, then holds back the last whole
deciphered block so the final call can unpad it.  (When fewer than
`block_size` bytes have been produced the C code would read out of bounds;
that state is unreachable from the engine's call patterns and the natural
truncated-subtraction reading is used.) -/
def EVP_DecryptUpdate (ctx : EVP_CIPHER_CTX) (input : List Nat) : List Nat × EVP_CIPHER_CTX :=
  if !ctx.pad then EVP_EncryptUpdate ctx input
  else
    let b := ctx.cipher.block_size
    let e1 :=
      if ctx.final_used then (ctx.finalBlk, { ctx with final_used := false })
      else (([] : List Nat), ctx)
    let pre := e1.1
    let p := EVP_EncryptUpdate e1.2 input
    let out := p.1
    let ctx1 := p.2
    if b > 1 ∧ ctx1.buf.length = 0 then
      (pre ++ out.take (out.length - b),
       { ctx1 with finalBlk := out.drop (out.length - b), final_used := true })
    else (pre ++ out, { ctx1 with final_used := false })

/-- Model of `EVP_EncryptInit_ex(ctx, NULL, NULL, NULL, iv)` (and the
decrypt variant): installs the IV and resets the buffered state (OpenSSL
unconditionally clears `buf_len` and `final_used` on re-init). -/
def EVP_CipherInit_iv (ctx : EVP_CIPHER_CTX) (iv : List Nat) : EVP_CIPHER_CTX :=
  { ctx with iv := iv, buf := [], final_used := false }

/-- `memcpy(dst + off, src, src.length)` on a byte buffer. -/
def memcpyAt (dst : List Nat) (off : Nat) (src : List Nat) : List Nat :=
  dst.take off ++ src ++ dst.drop (off + src.length)

/-- The copy loop of `H235CryptoEngine::SetIV` (lines 385-387): for
`i < n`, copy the 6 sequence bytes to offset `i * IV_SEQUENCE_LEN`. -/
def setIVCopies (s : List Nat) : Nat → List Nat → List Nat
  | 0, iv => iv
  | n + 1, iv => memcpyAt (setIVCopies s n iv) (n * IV_SEQUENCE_LEN) s

/-- `H235CryptoEngine::SetIV` (lines 381-395).  The `iv` stack buffer the
caller passes is uninitialised in C but is fully overwritten whenever the
result is read; it is modelled as starting zeroed.  `memcpy` always reads
`IV_SEQUENCE_LEN` (resp. `ivLen % IV_SEQUENCE_LEN`) bytes of the sequence
value, hence the `take`s. -/
def SetIV (ivSequence : Option (List Nat)) (ivLen : Nat) : List Nat :=
  match ivSequence with
  | some s =>
      let iv1 := setIVCopies (s.take IV_SEQUENCE_LEN) (ivLen / IV_SEQUENCE_LEN)
        (List.replicate ivLen 0)
      if ivLen % IV_SEQUENCE_LEN > 0 then
        memcpyAt iv1 (ivLen - ivLen % IV_SEQUENCE_LEN) (s.take (ivLen % IV_SEQUENCE_LEN))
      else iv1
  | none => List.replicate ivLen 0

/-- The external AES block transform, per algorithm OID and key. -/
structure AESFamily where
  enc : String → List Nat → List Nat → List Nat
  dec : String → List Nat → List Nat → List Nat

/-- `EVP_aes_128_cbc()` / `EVP_aes_192_cbc()` / `EVP_aes_256_cbc()` keyed
with `key`: AES block size is 16 for every variant, mode CBC. -/
def aesCbcCipher (A : AESFamily) (oid : String) (key : List Nat) : EVP_CIPHER :=
  { block_size := 16, mode := .cbc, enc := A.enc oid key, dec := A.dec oid key }

/-- Context state right after `EVP_CIPHER_CTX_init` +
`EVP_EncryptInit_ex(ctx, cipher, NULL, key, NULL)` (zeroed IV, empty
buffers, OpenSSL default padding enabled). -/
def freshCtx (ci : EVP_CIPHER) (dir : Bool) : EVP_CIPHER_CTX :=
  { cipher := ci, encryptDir := dir, pad := true,
    iv := List.replicate ci.block_size 0, buf := [],
    finalBlk := List.replicate ci.block_size 0, final_used := false }

/-- `H235CryptoEngine`: algorithm OID plus the encrypt/decrypt context pair;
`m_ctx = none` until a successful `SetKey` (the C contexts are simply
uninitialised memory before that). -/
structure H235CryptoEngine where
  m_algorithmOID : String
  m_ctx : Option (EVP_CIPHER_CTX × EVP_CIPHER_CTX)

/-- `H235CryptoEngine::H235CryptoEngine(algorithmOID)` (lines 341-344). -/
def H235CryptoEngine.engineInit (algorithmOID : String) : H235CryptoEngine :=
  { m_algorithmOID := algorithmOID, m_ctx := none }

/-- `H235CryptoEngine::SetKey` (lines 358-379): selects the AES-CBC cipher
by OID and re-keys both contexts; an unsupported OID only logs a trace and
returns, leaving the engine untouched — the `void` return reports nothing. -/
def H235CryptoEngine.SetKey (A : AESFamily) (e : H235CryptoEngine) (key : List Nat) : H235CryptoEngine :=
  if e.m_algorithmOID = OID_AES128 ∨ e.m_algorithmOID = OID_AES192 ∨
     e.m_algorithmOID = OID_AES256 then
    let ci := aesCbcCipher A e.m_algorithmOID key
    { e with m_ctx := some (freshCtx ci true, freshCtx ci false) }
  else e

/-- Result of `H235CryptoEngine::Encrypt`: the ciphertext buffer, the
`rtpPadding` out-flag, and the mutated engine. -/
structure EncryptResult where
  ciphertext : List Nat
  rtpPadding : Bool
  engine : H235CryptoEngine

/-- `H235CryptoEngine::Encrypt` (lines 397-436).  Failures of the EVP calls
are logged and swallowed exactly as in the source: the bytes assembled so
far are returned with no error indication.  On a never-keyed engine the C
code runs on an uninitialised cipher context (undefined behaviour); no claim
rests on that branch, which returns an empty buffer here. -/
def H235CryptoEngine.Encrypt (e : H235CryptoEngine) (data : List Nat)
    (ivSequence : Option (List Nat)) : EncryptResult :=
  match e.m_ctx with
  | none => { ciphertext := [], rtpPadding := false, engine := e }
  | some ctxs =>
      let bl := ctxs.1.cipher.block_size
      let iv := SetIV ivSequence bl
      let c0 := EVP_CipherInit_iv ctxs.1 iv
      let rtpPadding := data.length < bl
      let c1 := { c0 with pad := rtpPadding }
      if !rtpPadding ∧ data.length % bl > 0 then
        let p := EVP_EncryptUpdate_cts c1 data
        match EVP_EncryptFinal_cts p.2 with
        | .ok q => { ciphertext := p.1 ++ q.1, rtpPadding := rtpPadding,
                     engine := { e with m_ctx := some (q.2, ctxs.2) } }
        | .error _ => { ciphertext := p.1, rtpPadding := rtpPadding,
                        engine := { e with m_ctx := some (p.2, ctxs.2) } }
      else
        let p := EVP_EncryptUpdate c1 data
        match EVP_EncryptFinal_ex p.2 with
        | .ok q => { ciphertext := p.1 ++ q.1, rtpPadding := rtpPadding,
                     engine := { e with m_ctx := some (q.2, ctxs.2) } }
        | .error _ => { ciphertext := p.1, rtpPadding := rtpPadding,
                        engine := { e with m_ctx := some (p.2, ctxs.2) } }

/-- Result of `H235CryptoEngine::Decrypt`. -/
structure DecryptResult where
  plaintext : List Nat
  engine : H235CryptoEngine

/-- `H235CryptoEngine::Decrypt` (lines 438-472).  `rtpPadding` is only read
by this function. -/
def H235CryptoEngine.Decrypt (e : H235CryptoEngine) (data : List Nat)
    (ivSequence : Option (List Nat)) (rtpPadding : Bool) : DecryptResult :=
  match e.m_ctx with
  | none => { plaintext := [], engine := e }
  | some ctxs =>
      let bl := ctxs.2.cipher.block_size
      let iv := SetIV ivSequence bl
      let c0 := EVP_CipherInit_iv ctxs.2 iv
      let c1 := { c0 with pad := rtpPadding }
      if !rtpPadding ∧ data.length % bl > 0 then
        let p := EVP_DecryptUpdate_cts c1 data
        match EVP_DecryptFinal_cts p.2 with
        | .ok q => { plaintext := p.1 ++ q.1, engine := { e with m_ctx := some (ctxs.1, q.2) } }
        | .error _ => { plaintext := p.1, engine := { e with m_ctx := some (ctxs.1, p.2) } }
      else
        let p := EVP_DecryptUpdate c1 data
        match EVP_DecryptFinal_relaxed p.2 with
        | .ok o2 => { plaintext := p.1 ++ o2, engine := { e with m_ctx := some (ctxs.1, p.2) } }
        | .error _ => { plaintext := p.1, engine := { e with m_ctx := some (ctxs.1, p.2) } }

/-- `H235CryptoEngine::GenerateRandomKey` (lines 474-500), instance form:
sizes the key by the engine's OID (the `RAND_bytes` CSPRNG is modelled by
the `rand` oracle bytes) and installs it via `SetKey`. -/
def H235CryptoEngine.GenerateRandomKey (A : AESFamily) (rand : List Nat)
    (e : H235CryptoEngine) : List Nat × H235CryptoEngine :=
  let key :=
    if e.m_algorithmOID = OID_AES128 then rand.take 16
    else if e.m_algorithmOID = OID_AES192 then rand.take 24
    else if e.m_algorithmOID = OID_AES256 then rand.take 32
    else []
  (key, e.SetKey A key)

/-- Required key length per algorithm OID (16/24/32 bytes). -/
def keyLength (oid : String) : Nat :=
  if oid = OID_AES128 then 16
  else if oid = OID_AES192 then 24
  else if oid = OID_AES256 then 32
  else 0

/-- The fields of `RTP_DataFrame` this code touches: payload bytes and the
RTP padding-present bit. -/
structure RTP_DataFrame where
  payload : List Nat
  padding : Bool

/-- `H235Session` (lines 504-559): the external Diffie-Hellman collaborator
is modelled by the shared secret its `ComputeSessionKey` would produce. -/
structure H235Session where
  m_dhSharedSecret : List Nat
  m_context : H235CryptoEngine
  m_dhcontext : H235CryptoEngine
  m_isInitialised : Bool
  m_isMaster : Bool
  m_dhSessionkey : List Nat
  m_crytoMasterKey : List Nat

/-- `H235Session::H235Session(caps, oidAlgorithm)` (lines 504-509). -/
def H235Session.sessionInit (sharedSecret : List Nat) (oidAlgorithm : String) : H235Session :=
  { m_dhSharedSecret := sharedSecret,
    m_context := H235CryptoEngine.engineInit oidAlgorithm,
    m_dhcontext := H235CryptoEngine.engineInit oidAlgorithm,
    m_isInitialised := false, m_isMaster := false,
    m_dhSessionkey := [], m_crytoMasterKey := [] }

/-- `H235Session::IsInitialised` (lines 542-545). -/
def H235Session.IsInitialised (s : H235Session) : Bool := s.m_isInitialised

/-- `H235Session::IsActive` (lines 537-540). -/
def H235Session.IsActive (s : H235Session) : Bool := !s.IsInitialised

/-- `H235Session::CreateSession` (lines 547-559). -/
def H235Session.CreateSession (A : AESFamily) (rand : List Nat) (s : H235Session)
    (isMaster : Bool) : H235Session :=
  let s1 := { s with m_isMaster := isMaster, m_isInitialised := true,
                     m_dhSessionkey := s.m_dhSharedSecret }
  let s2 := { s1 with m_dhcontext := s1.m_dhcontext.SetKey A s1.m_dhSessionkey }
  if isMaster then
    let p := s2.m_context.GenerateRandomKey A rand
    { s2 with m_context := p.2, m_crytoMasterKey := p.1 }
  else s2

/-- `H235Session::EncodeMediaKey` (lines 516-524): the `rtpPadding` out-flag
of `Encrypt` is discarded. -/
def H235Session.EncodeMediaKey (s : H235Session) : List Nat × H235Session :=
  let r := s.m_dhcontext.Encrypt s.m_crytoMasterKey none
  (r.ciphertext, { s with m_dhcontext := r.engine })

/-- `H235Session::DecodeMediaKey` (lines 526-535). -/
def H235Session.DecodeMediaKey (A : AESFamily) (s : H235Session) (key : List Nat) : H235Session :=
  let r := s.m_dhcontext.Decrypt key none false
  { s with m_dhcontext := r.engine, m_crytoMasterKey := r.plaintext,
           m_context := s.m_context.SetKey A r.plaintext }

/-- `H235Session::ReadFrame` (lines 561-571): the padding flag is read from
the incoming frame (the sequence number is not threaded through — see the
commented-out `TODO` in the source). -/
def H235Session.ReadFrame (s : H235Session) (frame : RTP_DataFrame) :
    H235Session × RTP_DataFrame :=
  let r := s.m_context.Decrypt frame.payload none frame.padding
  ({ s with m_context := r.engine }, { frame with payload := r.plaintext })

/-- `H235Session::WriteFrame` (lines 573-583): the `rtpPadding` flag
computed by `Encrypt` is never written back into the frame. -/
def H235Session.WriteFrame (s : H235Session) (frame : RTP_DataFrame) :
    H235Session × RTP_DataFrame :=
  let r := s.m_context.Encrypt frame.payload none
  ({ s with m_context := r.engine }, { frame with payload := r.ciphertext })

/-- A concrete block transform (the identity permutation) standing in for
the external AES primitive in concrete instantiations. -/
def idAES : AESFamily := { enc := fun _ _ b => b, dec := fun _ _ b => b }

/-- A well-behaved block cipher description: AES block size, and the two
block transforms are mutually inverse length-preserving maps on 16-byte
blocks. -/
def GoodCipher (ci : EVP_CIPHER) : Prop :=
  ci.block_size = 16 ∧
  (∀ b, b.length = 16 → (ci.enc b).length = 16) ∧
  (∀ b, b.length = 16 → (ci.dec b).length = 16) ∧
  (∀ b, b.length = 16 → ci.dec (ci.enc b) = b)

/-- A well-behaved abstract AES family: for every OID and key the block
transforms are mutually inverse length-preserving maps on 16-byte blocks. -/
def GoodAES (A : AESFamily) : Prop :=
  ∀ oid key, GoodCipher (aesCbcCipher A oid key)

/-! ### Byte-buffer helper lemmas -/

theorem xorB_length (a b : List Nat) : (xorB a b).length = min a.length b.length := by
  simp [xorB]

theorem xorB_cancel_right : ∀ (a b : List Nat), b.length = a.length →
    xorB (xorB a b) b = a
  | [], b, _ => by simp [xorB]
  | x :: xs, [], h => by simp at h
  | x :: xs, y :: ys, h => by
      have ih := xorB_cancel_right xs ys (by simpa using h)
      simp only [xorB, List.zipWith_cons_cons] at ih ⊢
      rw [ih, Nat.xor_cancel_right]

theorem xorB_zero_right : ∀ (a : List Nat) (n : Nat), a.length = n →
    xorB a (List.replicate n 0) = a
  | [], _, h => by simp [xorB]
  | x :: xs, n, h => by
      cases n with
      | zero => simp at h
      | succ k =>
          have ih := xorB_zero_right xs k (by simpa using h)
          simp only [List.replicate_succ, xorB, List.zipWith_cons_cons] at ih ⊢
          rw [ih, Nat.xor_zero]

theorem xorB_zero_left : ∀ (n : Nat) (a : List Nat), a.length = n →
    xorB (List.replicate n 0) a = a
  | _, [], h => by simp [xorB]
  | n, x :: xs, h => by
      cases n with
      | zero => simp at h
      | succ k =>
          have ih := xorB_zero_left k xs (by simpa using h)
          simp only [List.replicate_succ, xorB, List.zipWith_cons_cons] at ih ⊢
          rw [ih, Nat.zero_xor]

theorem xorB_append (a b c d : List Nat) (h : a.length = c.length) :
    xorB (a ++ b) (c ++ d) = xorB a c ++ xorB b d :=
  List.zipWith_append _ _ _ _ _ h

/-- `x & block_mask` is `x mod block_size` for the (power-of-two) AES block
size. -/
theorem land_fifteen (x : Nat) : x &&& 15 = x % 16 := by
  have h := Nat.and_pow_two_sub_one_eq_mod x 4
  norm_num at h
  exact h

/-! ### Block-cipher layer -/

theorem doCipherAux_zero (ci : EVP_CIPHER) (dir : Bool) (iv input : List Nat) :
    doCipherAux ci dir 0 iv input = ([], iv) := rfl

theorem doCipherAux_succ (ci : EVP_CIPHER) (dir : Bool) (n : Nat) (iv input : List Nat) :
    doCipherAux ci dir (n + 1) iv input =
      ((blockStep ci dir iv (input.take ci.block_size)).1 ++
        (doCipherAux ci dir n (blockStep ci dir iv (input.take ci.block_size)).2
          (input.drop ci.block_size)).1,
       (doCipherAux ci dir n (blockStep ci dir iv (input.take ci.block_size)).2
          (input.drop ci.block_size)).2) := rfl

theorem blockStep_cbc_enc (ci : EVP_CIPHER) (hm : ci.mode = .cbc) (iv blk : List Nat) :
    blockStep ci true iv blk = (ci.enc (xorB blk iv), ci.enc (xorB blk iv)) := by
  simp [blockStep, hm]

theorem blockStep_cbc_dec (ci : EVP_CIPHER) (hm : ci.mode = .cbc) (iv blk : List Nat) :
    blockStep ci false iv blk = (xorB (ci.dec blk) iv, blk) := by
  simp [blockStep, hm]

theorem blockStep_ecb_enc (ci : EVP_CIPHER) (hm : ci.mode = .ecb) (iv blk : List Nat) :
    blockStep ci true iv blk = (ci.enc blk, iv) := by
  simp [blockStep, hm]

theorem blockStep_ecb_dec (ci : EVP_CIPHER) (hm : ci.mode = .ecb) (iv blk : List Nat) :
    blockStep ci false iv blk = (ci.dec blk, iv) := by
  simp [blockStep, hm]

theorem blockStep_fst_length (ci : EVP_CIPHER) (hci : GoodCipher ci) (dir : Bool)
    (iv blk : List Nat) (hiv : iv.length = 16) (hblk : blk.length = 16) :
    (blockStep ci dir iv blk).1.length = 16 := by
  obtain ⟨_, hE, hD, _⟩ := hci
  have hx : (xorB blk iv).length = 16 := by rw [xorB_length, hblk, hiv]; rfl
  cases hm : ci.mode with
  | cbc =>
      cases dir with
      | true => rw [blockStep_cbc_enc ci hm]; exact hE _ hx
      | false =>
          rw [blockStep_cbc_dec ci hm]
          show (xorB (ci.dec blk) iv).length = 16
          rw [xorB_length, hD _ hblk, hiv]; rfl
  | ecb =>
      cases dir with
      | true => rw [blockStep_ecb_enc ci hm]; exact hE _ hblk
      | false => rw [blockStep_ecb_dec ci hm]; exact hD _ hblk
  | other => cases dir <;> simp [blockStep, hm, hblk]

theorem blockStep_snd_length (ci : EVP_CIPHER) (hci : GoodCipher ci) (dir : Bool)
    (iv blk : List Nat) (hiv : iv.length = 16) (hblk : blk.length = 16) :
    (blockStep ci dir iv blk).2.length = 16 := by
  obtain ⟨_, hE, _, _⟩ := hci
  have hx : (xorB blk iv).length = 16 := by rw [xorB_length, hblk, hiv]; rfl
  cases hm : ci.mode with
  | cbc =>
      cases dir with
      | true => rw [blockStep_cbc_enc ci hm]; exact hE _ hx
      | false => rw [blockStep_cbc_dec ci hm]; exact hblk
  | ecb => cases dir <;> simp [blockStep, hm, hiv]
  | other => cases dir <;> simp [blockStep, hm, hiv]

theorem doCipherAux_length (ci : EVP_CIPHER) (hci : GoodCipher ci) (dir : Bool) :
    ∀ (n : Nat) (iv input : List Nat), iv.length = 16 → input.length = n * 16 →
    (doCipherAux ci dir n iv input).1.length = n * 16 ∧
    (doCipherAux ci dir n iv input).2.length = 16
  | 0, iv, input, hiv, _ => by simp [doCipherAux_zero, hiv]
  | n + 1, iv, input, hiv, hlen => by
      have hbs := hci.1
      have htk : (input.take ci.block_size).length = 16 := by
        simp only [List.length_take, hbs, hlen]; omega
      have h1 := blockStep_fst_length ci hci dir iv (input.take ci.block_size) hiv htk
      have h2 := blockStep_snd_length ci hci dir iv (input.take ci.block_size) hiv htk
      have hdr : (input.drop ci.block_size).length = n * 16 := by
        simp only [List.length_drop, hbs, hlen]; omega
      have ih := doCipherAux_length ci hci dir n
        (blockStep ci dir iv (input.take ci.block_size)).2 (input.drop ci.block_size) h2 hdr
      rw [doCipherAux_succ]
      refine ⟨?_, ih.2⟩
      simp only [List.length_append, h1, ih.1]
      ring

theorem doCipherAux_append (ci : EVP_CIPHER) (dir : Bool) (hbs : ci.block_size = 16) :
    ∀ (n m : Nat) (iv a b : List Nat), a.length = (n + 1) * 16 →
    doCipherAux ci dir (n + 1 + m) iv (a ++ b) =
      ((doCipherAux ci dir (n + 1) iv a).1 ++
        (doCipherAux ci dir m (doCipherAux ci dir (n + 1) iv a).2 b).1,
       (doCipherAux ci dir m (doCipherAux ci dir (n + 1) iv a).2 b).2)
  | 0, m, iv, a, b, ha => by
      have h16 : ci.block_size ≤ a.length := by omega
      have hdra : a.drop ci.block_size = [] :=
        List.drop_of_length_le (by omega)
      have hsucc : 0 + 1 + m = m + 1 := by omega
      rw [hsucc, doCipherAux_succ,
        List.take_append_of_le_length h16, List.drop_append_of_le_length h16,
        List.take_of_length_le (by omega), hdra, List.nil_append]
      rw [doCipherAux_succ ci dir 0 iv a, List.take_of_length_le (by omega), hdra,
        doCipherAux_zero]
      simp
  | n + 1, m, iv, a, b, ha => by
      have h16 : ci.block_size ≤ a.length := by omega
      have hlen : (a.drop ci.block_size).length = (n + 1) * 16 := by
        simp only [List.length_drop, hbs, ha]; omega
      have ih := doCipherAux_append ci dir hbs n m
        (blockStep ci dir iv (a.take ci.block_size)).2 (a.drop ci.block_size) b hlen
      have hsucc : n + 1 + 1 + m = (n + 1 + m) + 1 := by omega
      rw [hsucc, doCipherAux_succ,
        List.take_append_of_le_length h16, List.drop_append_of_le_length h16, ih,
        doCipherAux_succ ci dir (n + 1) iv a]
      simp [List.append_assoc]

/-- CBC decryption inverts CBC encryption blockwise, and both leave the same
final chaining value (the last ciphertext block). -/
theorem doCipherAux_cbc_roundtrip (ci : EVP_CIPHER) (hci : GoodCipher ci)
    (hm : ci.mode = .cbc) :
    ∀ (n : Nat) (iv P : List Nat), iv.length = 16 → P.length = n * 16 →
    doCipherAux ci false n iv (doCipherAux ci true n iv P).1 =
      (P, (doCipherAux ci true n iv P).2)
  | 0, iv, P, _, hP => by
      have : P = [] := List.eq_nil_of_length_eq_zero (by simpa using hP)
      simp [this, doCipherAux_zero]
  | n + 1, iv, P, hiv, hP => by
      obtain ⟨hbs, hE, hD, hED⟩ := hci
      have hci' : GoodCipher ci := ⟨hbs, hE, hD, hED⟩
      have htk : (P.take ci.block_size).length = 16 := by
        simp only [List.length_take, hbs, hP]; omega
      have hxlen : (xorB (P.take ci.block_size) iv).length = 16 := by
        rw [xorB_length, htk, hiv]; rfl
      have hClen : (ci.enc (xorB (P.take ci.block_size) iv)).length = 16 := hE _ hxlen
      have hdr : (P.drop ci.block_size).length = n * 16 := by
        simp only [List.length_drop, hbs, hP]; omega
      have ih := doCipherAux_cbc_roundtrip ci hci' hm n
        (ci.enc (xorB (P.take ci.block_size) iv)) (P.drop ci.block_size) hClen hdr
      rw [doCipherAux_succ ci true n iv P, blockStep_cbc_enc ci hm]
      dsimp only
      rw [doCipherAux_succ ci false n iv _, blockStep_cbc_dec ci hm]
      dsimp only
      rw [List.take_append_of_le_length (by omega),
        List.take_of_length_le (by omega),
        List.drop_append_of_le_length (by omega),
        List.drop_of_length_le (by omega), List.nil_append]
      rw [hED _ hxlen, xorB_cancel_right _ iv (by omega), ih]
      simp [List.take_append_drop]

/-! ### `do_cipher` characterizations -/

theorem do_cipher_eq (ctx : EVP_CIPHER_CTX) (input : List Nat) (n : Nat)
    (hbs : ctx.cipher.block_size = 16) (hlen : input.length = n * 16) :
    do_cipher ctx input =
      ((doCipherAux ctx.cipher ctx.encryptDir n ctx.iv input).1,
       { ctx with iv := (doCipherAux ctx.cipher ctx.encryptDir n ctx.iv input).2 }) := by
  have h : input.length / ctx.cipher.block_size = n := by rw [hlen, hbs]; omega
  unfold do_cipher
  rw [h]

theorem do_cipher_nil (ctx : EVP_CIPHER_CTX) : do_cipher ctx [] = ([], ctx) := by
  unfold do_cipher
  simp [doCipherAux_zero]

theorem do_cipher_keeps_cipher (ctx : EVP_CIPHER_CTX) (input : List Nat) :
    (do_cipher ctx input).2.cipher = ctx.cipher := rfl

theorem do_cipher_keeps_dir (ctx : EVP_CIPHER_CTX) (input : List Nat) :
    (do_cipher ctx input).2.encryptDir = ctx.encryptDir := rfl

theorem do_cipher_keeps_pad (ctx : EVP_CIPHER_CTX) (input : List Nat) :
    (do_cipher ctx input).2.pad = ctx.pad := rfl

theorem do_cipher_keeps_buf (ctx : EVP_CIPHER_CTX) (input : List Nat) :
    (do_cipher ctx input).2.buf = ctx.buf := rfl

theorem do_cipher_keeps_finalBlk (ctx : EVP_CIPHER_CTX) (input : List Nat) :
    (do_cipher ctx input).2.finalBlk = ctx.finalBlk := rfl

theorem do_cipher_keeps_final_used (ctx : EVP_CIPHER_CTX) (input : List Nat) :
    (do_cipher ctx input).2.final_used = ctx.final_used := rfl

theorem do_cipher_single (ctx : EVP_CIPHER_CTX) (input : List Nat)
    (hbs : ctx.cipher.block_size = 16) (hlen : input.length = 16) :
    do_cipher ctx input =
      ((blockStep ctx.cipher ctx.encryptDir ctx.iv input).1,
       { ctx with iv := (blockStep ctx.cipher ctx.encryptDir ctx.iv input).2 }) := by
  rw [do_cipher_eq ctx input 1 hbs (by omega), show (1 : Nat) = 0 + 1 from rfl,
    doCipherAux_succ, doCipherAux_zero, List.take_of_length_le (by omega)]
  simp

theorem do_cipher_append (ctx : EVP_CIPHER_CTX) (a b : List Nat) (na nb : Nat)
    (hbs : ctx.cipher.block_size = 16) (ha : a.length = na * 16) (hb : b.length = nb * 16) :
    do_cipher ctx (a ++ b) =
      ((do_cipher ctx a).1 ++ (do_cipher (do_cipher ctx a).2 b).1,
       (do_cipher (do_cipher ctx a).2 b).2) := by
  cases na with
  | zero =>
      have : a = [] := List.eq_nil_of_length_eq_zero (by simpa using ha)
      simp [this, do_cipher_nil]
  | succ k =>
      rw [do_cipher_eq ctx (a ++ b) (k + 1 + nb) hbs
          (by simp only [List.length_append, ha, hb]; ring),
        do_cipher_eq ctx a (k + 1) hbs ha,
        doCipherAux_append ctx.cipher ctx.encryptDir hbs k nb ctx.iv a b ha,
        do_cipher_eq _ b nb (by rw [hbs]) hb]

/-! ### Characterization of the CTS update on a fresh context -/

/-- A single `EVP_EncryptUpdate_cts` call on a fresh context (the engine
always calls it this way) with `m*16 + r` input bytes, `1 ≤ r ≤ 15`,
`m ≥ 1`: the first `m-1` blocks are ciphered and emitted, the last whole
block is held in `final`, and the `r` trailing bytes are buffered. -/
theorem ctsUpdate_fresh (ctx : EVP_CIPHER_CTX) (hbs : ctx.cipher.block_size = 16)
    (hbuf : ctx.buf = []) (hfu : ctx.final_used = false)
    (P : List Nat) (m r : Nat) (hP : P.length = m * 16 + r)
    (hm : 1 ≤ m) (hr1 : 1 ≤ r) (hr2 : r ≤ 15) :
    EVP_EncryptUpdate_cts ctx P =
      ((do_cipher ctx (P.take ((m - 1) * 16))).1,
       { ctx with iv := (do_cipher ctx (P.take ((m - 1) * 16))).2.iv,
                  buf := P.drop (m * 16),
                  finalBlk := (P.drop ((m - 1) * 16)).take 16,
                  final_used := true }) := by
  have hc1 : ¬(ctx.buf.length + P.length ≤ ctx.cipher.block_size) := by
    rw [hbuf, hbs]; simp only [List.length_nil]; omega
  simp only [EVP_EncryptUpdate_cts]
  rw [if_neg hc1]
  simp only [hfu, Bool.false_eq_true, if_false, hbuf, hbs, List.length_nil,
    Nat.sub_zero, List.nil_append]
  by_cases hm1 : m = 1
  · rw [if_pos (by simp only [List.length_drop]; omega)]
    subst hm1
    simp [do_cipher_nil]
  · have hm2 : 2 ≤ m := by omega
    rw [if_neg (by simp only [List.length_drop]; omega)]
    have hlo : (P.drop 16).length &&& (16 - 1) = r := by
      rw [List.length_drop, hP, show (16 : Nat) - 1 = 15 from rfl, land_fifteen]
      omega
    rw [hlo, if_pos (by omega)]
    have hinl : (P.drop 16).length - (16 + r) = (m - 2) * 16 := by
      rw [List.length_drop, hP]; omega
    rw [hinl]
    have hsplit : P.take ((m - 1) * 16) = P.take 16 ++ (P.drop 16).take ((m - 2) * 16) := by
      rw [show (m - 1) * 16 = 16 + (m - 2) * 16 by omega, List.take_add]
    have hlen1 : (P.take 16).length = 1 * 16 := by
      simp only [List.length_take]; omega
    have hlen2 : ((P.drop 16).take ((m - 2) * 16)).length = (m - 2) * 16 := by
      simp only [List.length_take, List.length_drop]; omega
    rw [hsplit, do_cipher_append ctx (P.take 16) ((P.drop 16).take ((m - 2) * 16))
      1 (m - 2) hbs hlen1 hlen2]
    rw [List.drop_drop, List.drop_drop,
      show 16 + ((m - 2) * 16 + 16) = m * 16 by omega,
      show 16 + (m - 2) * 16 = (m - 1) * 16 by omega,
      show List.take r (List.drop (m * 16) P) = List.drop (m * 16) P from
        List.take_of_length_le (by rw [List.length_drop, hP]; omega)]
    simp only [do_cipher_keeps_cipher, do_cipher_keeps_dir, do_cipher_keeps_pad]

/-! ### The CTS final blocks (CBC) -/

/-- `EVP_EncryptFinal_cts` on a CBC encrypt context holding the plaintext
block `F` and the `r` buffered tail bytes `Bf`: emits the zero-padded tail
block ciphered after `F`, then the first `r` stolen bytes of the ciphered
`F`. -/
theorem encFinalCts_cbc (ci : EVP_CIPHER) (hmode : ci.mode = .cbc) (hbs : ci.block_size = 16)
    (pad : Bool) (u F Bf : List Nat) (r : Nat) (hF : F.length = 16)
    (hBf : Bf.length = r) (hr1 : 1 ≤ r) (hr2 : r ≤ 15) :
    EVP_EncryptFinal_cts
      { cipher := ci, encryptDir := true, pad := pad, iv := u, buf := Bf,
        finalBlk := F, final_used := true } =
      .ok (ci.enc (xorB (Bf ++ List.replicate (16 - r) 0) (ci.enc (xorB F u))) ++
             (ci.enc (xorB F u)).take r,
           { cipher := ci, encryptDir := true, pad := pad,
             iv := ci.enc (xorB (Bf ++ List.replicate (16 - r) 0) (ci.enc (xorB F u))),
             buf := Bf, finalBlk := F, final_used := true }) := by
  simp only [EVP_EncryptFinal_cts]
  rw [if_neg (by simp), if_neg (by simp only [hBf]; omega)]
  simp only [hmode]
  rw [do_cipher_single _ _ hbs hF]
  simp only [blockStep_cbc_enc ci hmode]
  rw [do_cipher_single _ _ hbs (by simp only [List.length_append, List.length_replicate, hBf]; omega)]
  simp only [blockStep_cbc_enc ci hmode, hBf, hbs]

/-- `EVP_DecryptFinal_cts` on a CBC decrypt context whose held block and
buffer are the two trailing pieces produced by the CTS encrypt final under
the same chaining value `u`: recovers the plaintext block `F` followed by
the tail `Bf`. -/
theorem decFinalCts_cbc_recover (ci : EVP_CIPHER) (hci : GoodCipher ci)
    (hmode : ci.mode = .cbc) (pad : Bool) (u F Bf : List Nat) (r : Nat)
    (hu : u.length = 16) (hF : F.length = 16) (hBf : Bf.length = r)
    (hr1 : 1 ≤ r) (hr2 : r ≤ 15) :
    ∃ c2, EVP_DecryptFinal_cts
      { cipher := ci, encryptDir := false, pad := pad, iv := u,
        buf := (ci.enc (xorB F u)).take r,
        finalBlk := ci.enc (xorB (Bf ++ List.replicate (16 - r) 0) (ci.enc (xorB F u))),
        final_used := true } = .ok (F ++ Bf, c2) := by
  obtain ⟨hbs, hE, hD, hED⟩ := hci
  have hxFu : (xorB F u).length = 16 := by rw [xorB_length, hF, hu]; rfl
  have hC1 : (ci.enc (xorB F u)).length = 16 := hE _ hxFu
  have hpadlen : (Bf ++ List.replicate (16 - r) 0).length = 16 := by
    simp only [List.length_append, List.length_replicate, hBf]; omega
  have hCl : (ci.enc (xorB (Bf ++ List.replicate (16 - r) 0) (ci.enc (xorB F u)))).length = 16 :=
    hE _ (by rw [xorB_length, hpadlen, hC1]; rfl)
  have hblen : ((ci.enc (xorB F u)).take r).length = r := by
    simp only [List.length_take, hC1]; omega
  have hX : xorB (Bf ++ List.replicate (16 - r) 0) (ci.enc (xorB F u)) =
      xorB Bf ((ci.enc (xorB F u)).take r) ++ (ci.enc (xorB F u)).drop r := by
    conv_lhs => rw [← List.take_append_drop r (ci.enc (xorB F u))]
    rw [xorB_append _ _ _ _ (by rw [hBf, List.length_take, hC1]; omega)]
    rw [xorB_zero_left _ _ (by rw [List.length_drop, hC1])]
  have htmp : xorB (xorB (xorB
        (ci.dec (ci.enc (xorB (Bf ++ List.replicate (16 - r) 0) (ci.enc (xorB F u))))) u) u)
        ((ci.enc (xorB F u)).take r ++ List.replicate (16 - r) 0) =
      Bf ++ (ci.enc (xorB F u)).drop r := by
    rw [hED _ (by rw [xorB_length, hpadlen, hC1]; rfl)]
    rw [xorB_cancel_right _ u (by rw [hu, xorB_length, hpadlen, hC1]; rfl)]
    rw [hX]
    rw [xorB_append _ _ _ _ (by rw [xorB_length, hBf, hblen]; omega)]
    rw [xorB_cancel_right Bf _ (by rw [hBf, hblen])]
    rw [xorB_zero_right _ _ (by rw [List.length_drop, hC1])]
  have hbuffull : (ci.enc (xorB F u)).take r ++
      ((Bf ++ (ci.enc (xorB F u)).drop r).drop r).take (16 - r) = ci.enc (xorB F u) := by
    rw [List.drop_left' hBf,
      show List.take (16 - r) (List.drop r (ci.enc (xorB F u))) =
          List.drop r (ci.enc (xorB F u)) from
        List.take_of_length_le (le_of_eq (by rw [List.length_drop, hC1])),
      List.take_append_drop]
  have houtblk : xorB (xorB (xorB (ci.dec (ci.enc (xorB F u)))
        (ci.enc (xorB (Bf ++ List.replicate (16 - r) 0) (ci.enc (xorB F u)))))
        (ci.enc (xorB (Bf ++ List.replicate (16 - r) 0) (ci.enc (xorB F u))))) u = F := by
    rw [hED _ hxFu]
    rw [xorB_cancel_right _ _ (by rw [hCl, hxFu])]
    rw [xorB_cancel_right _ _ (by rw [hu, hF])]
  simp only [EVP_DecryptFinal_cts]
  rw [if_neg (by simp), if_neg (by simp only [hblen]; omega)]
  simp only [hmode, hblen, hbs]
  rw [do_cipher_single _ _ hbs hCl]
  simp only [blockStep_cbc_dec ci hmode]
  rw [htmp, hbuffull]
  rw [do_cipher_single _ _ hbs hC1]
  simp only [blockStep_cbc_dec ci hmode]
  rw [houtblk, List.take_left' hBf]
  exact ⟨_, rfl⟩

/-! ### CTS round trip at the context level -/

/-- Round trip of the ciphertext-stealing codec in CBC mode, exactly as the
engine drives it: a single update call on a fresh encrypt context followed
by the encrypt final, then a single update call on a fresh decrypt context
(same cipher and IV) followed by the decrypt final, recovers the plaintext;
and the ciphertext has exactly the plaintext's length. -/
theorem cts_roundtrip_ctx (ci : EVP_CIPHER) (hci : GoodCipher ci) (hmode : ci.mode = .cbc)
    (iv0 : List Nat) (hiv : iv0.length = 16) (ce cd : EVP_CIPHER_CTX)
    (hce : ce = { cipher := ci, encryptDir := true, pad := ce.pad, iv := iv0, buf := [], finalBlk := ce.finalBlk, final_used := false })
    (hcd : cd = { cipher := ci, encryptDir := false, pad := cd.pad, iv := iv0, buf := [], finalBlk := cd.finalBlk, final_used := false })
    (P : List Nat) (m r : Nat) (hP : P.length = m * 16 + r) (hm : 1 ≤ m)
    (hr1 : 1 ≤ r) (hr2 : r ≤ 15) :
    ∃ o2 c2,
      EVP_EncryptFinal_cts (EVP_EncryptUpdate_cts ce P).2 = .ok (o2, c2) ∧
      ((EVP_EncryptUpdate_cts ce P).1 ++ o2).length = P.length ∧
      ∃ d2 e2,
        EVP_DecryptFinal_cts (EVP_DecryptUpdate_cts cd ((EVP_EncryptUpdate_cts ce P).1 ++ o2)).2 = .ok (d2, e2) ∧
        (EVP_DecryptUpdate_cts cd ((EVP_EncryptUpdate_cts ce P).1 ++ o2)).1 ++ d2 = P := by
  obtain ⟨hbs, hE, hD, hED⟩ := hci
  have hci' : GoodCipher ci := ⟨hbs, hE, hD, hED⟩
  rw [hce, hcd]
  have hPpre : (P.take ((m - 1) * 16)).length = (m - 1) * 16 := by
    simp only [List.length_take]; omega
  have hF16 : ((P.drop ((m - 1) * 16)).take 16).length = 16 := by
    simp only [List.length_take, List.length_drop]; omega
  have hTr : (P.drop (m * 16)).length = r := by
    simp only [List.length_drop]; omega
  have haux := doCipherAux_length ci hci' true (m - 1) iv0 (P.take ((m - 1) * 16)) hiv hPpre
  have hEU := ctsUpdate_fresh
    { cipher := ci, encryptDir := true, pad := ce.pad, iv := iv0, buf := [], finalBlk := ce.finalBlk, final_used := false }
    hbs rfl rfl P m r hP hm hr1 hr2
  rw [do_cipher_eq _ _ (m - 1) hbs hPpre] at hEU
  dsimp only at hEU
  have hEF := encFinalCts_cbc ci hmode hbs ce.pad
    (doCipherAux ci true (m - 1) iv0 (P.take ((m - 1) * 16))).2
    ((P.drop ((m - 1) * 16)).take 16) (P.drop (m * 16)) r hF16 hTr hr1 hr2
  have hxFV : (xorB ((P.drop ((m - 1) * 16)).take 16)
      (doCipherAux ci true (m - 1) iv0 (P.take ((m - 1) * 16))).2).length = 16 := by
    rw [xorB_length, hF16, haux.2]; rfl
  have hC1len : (ci.enc (xorB ((P.drop ((m - 1) * 16)).take 16)
      (doCipherAux ci true (m - 1) iv0 (P.take ((m - 1) * 16))).2)).length = 16 := hE _ hxFV
  have hCllen : (ci.enc (xorB (P.drop (m * 16) ++ List.replicate (16 - r) 0)
      (ci.enc (xorB ((P.drop ((m - 1) * 16)).take 16)
        (doCipherAux ci true (m - 1) iv0 (P.take ((m - 1) * 16))).2)))).length = 16 := by
    refine hE _ ?_
    rw [xorB_length, hC1len, List.length_append, List.length_replicate, hTr]
    omega
  have htklen : ((ci.enc (xorB ((P.drop ((m - 1) * 16)).take 16)
      (doCipherAux ci true (m - 1) iv0 (P.take ((m - 1) * 16))).2)).take r).length = r := by
    simp only [List.length_take, hC1len]; omega
  rw [hEU]
  dsimp only
  refine ⟨_, _, hEF, ?_, ?_⟩
  · simp only [List.length_append, haux.1, hCllen, htklen]
    omega
  · -- decrypt side
    have hXlen : ((doCipherAux ci true (m - 1) iv0 (P.take ((m - 1) * 16))).1 ++
        (ci.enc (xorB (P.drop (m * 16) ++ List.replicate (16 - r) 0)
          (ci.enc (xorB ((P.drop ((m - 1) * 16)).take 16)
            (doCipherAux ci true (m - 1) iv0 (P.take ((m - 1) * 16))).2))) ++
         (ci.enc (xorB ((P.drop ((m - 1) * 16)).take 16)
            (doCipherAux ci true (m - 1) iv0 (P.take ((m - 1) * 16))).2)).take r)).length =
        m * 16 + r := by
      simp only [List.length_append, haux.1, hCllen, htklen]
      omega
    have hDU := ctsUpdate_fresh
      { cipher := ci, encryptDir := false, pad := cd.pad, iv := iv0, buf := [], finalBlk := cd.finalBlk, final_used := false }
      hbs rfl rfl _ m r hXlen hm hr1 hr2
    have hXdrop2 : ((doCipherAux ci true (m - 1) iv0 (P.take ((m - 1) * 16))).1 ++
        (ci.enc (xorB (P.drop (m * 16) ++ List.replicate (16 - r) 0)
          (ci.enc (xorB ((P.drop ((m - 1) * 16)).take 16)
            (doCipherAux ci true (m - 1) iv0 (P.take ((m - 1) * 16))).2))) ++
         (ci.enc (xorB ((P.drop ((m - 1) * 16)).take 16)
            (doCipherAux ci true (m - 1) iv0 (P.take ((m - 1) * 16))).2)).take r)).drop (m * 16) =
        (ci.enc (xorB ((P.drop ((m - 1) * 16)).take 16)
            (doCipherAux ci true (m - 1) iv0 (P.take ((m - 1) * 16))).2)).take r := by
      rw [List.drop_append_eq_append_drop,
        List.drop_of_length_le (by rw [haux.1]; omega), haux.1,
        show m * 16 - (m - 1) * 16 = 16 by omega,
        List.drop_left' hCllen, List.nil_append]
    rw [List.take_left' haux.1, hXdrop2, List.drop_left' haux.1, List.take_left' hCllen] at hDU
    rw [do_cipher_eq _ _ (m - 1) hbs haux.1] at hDU
    dsimp only at hDU
    rw [doCipherAux_cbc_roundtrip ci hci' hmode (m - 1) iv0 (P.take ((m - 1) * 16)) hiv hPpre]
      at hDU
    dsimp only at hDU
    obtain ⟨e2, hDF⟩ := decFinalCts_cbc_recover ci hci' hmode cd.pad
      (doCipherAux ci true (m - 1) iv0 (P.take ((m - 1) * 16))).2
      ((P.drop ((m - 1) * 16)).take 16) (P.drop (m * 16)) r haux.2 hF16 hTr hr1 hr2
    simp only [EVP_DecryptUpdate_cts]
    rw [hDU]
    dsimp only
    refine ⟨_, _, hDF, ?_⟩
    rw [show P.drop (m * 16) = (P.drop ((m - 1) * 16)).drop 16 by
        rw [List.drop_drop]; congr 1; omega,
      List.take_append_drop, List.take_append_drop]

/-! ### The standard (padded / aligned) paths -/

/-- A single external `EVP_EncryptUpdate` call on a context with an empty
buffer: ciphers every whole block, buffers the remainder. -/
theorem evpUpdate_fresh (ctx : EVP_CIPHER_CTX) (hbs : ctx.cipher.block_size = 16)
    (hbuf : ctx.buf = []) (P : List Nat) :
    EVP_EncryptUpdate ctx P =
      ((do_cipher ctx (P.take (P.length - P.length % 16))).1,
       { ctx with iv := (do_cipher ctx (P.take (P.length - P.length % 16))).2.iv,
                  buf := P.drop (P.length - P.length % 16) }) := by
  simp only [EVP_EncryptUpdate, hbuf, hbs, List.length_nil]
  rw [if_neg (by simp)]
  rw [if_neg (by simp)]
  rw [show (16 : Nat) - 1 = 15 from rfl, land_fifteen]
  simp only [List.nil_append, do_cipher_keeps_cipher, do_cipher_keeps_dir,
    do_cipher_keeps_pad, do_cipher_keeps_finalBlk, do_cipher_keeps_final_used]

/-- External `EVP_EncryptFinal_ex` with padding enabled: PKCS-pads the
buffered bytes to one block and ciphers it. -/
theorem encFinalEx_pad (ctx : EVP_CIPHER_CTX) (hbs : ctx.cipher.block_size = 16)
    (hpad : ctx.pad = true) :
    EVP_EncryptFinal_ex ctx =
      .ok ((do_cipher ctx
              (ctx.buf ++ List.replicate (16 - ctx.buf.length) (16 - ctx.buf.length))).1,
           { ctx with
               iv := (do_cipher ctx
                 (ctx.buf ++ List.replicate (16 - ctx.buf.length) (16 - ctx.buf.length))).2.iv,
               buf := [] }) := by
  simp only [EVP_EncryptFinal_ex, hpad, hbs, Bool.not_true, Bool.false_eq_true, if_false]
  rw [if_pos (by omega)]
  simp only [hpad, do_cipher_keeps_cipher, do_cipher_keeps_dir, do_cipher_keeps_pad,
    do_cipher_keeps_finalBlk, do_cipher_keeps_final_used]

/-- External `EVP_EncryptFinal_ex` with padding disabled and no pending
bytes: emits nothing. -/
theorem encFinalEx_nopad (ctx : EVP_CIPHER_CTX) (hpad : ctx.pad = false)
    (hbuf : ctx.buf = []) :
    EVP_EncryptFinal_ex ctx = .ok ([], ctx) := by
  simp only [EVP_EncryptFinal_ex, hpad, hbuf]
  simp

/-- External `EVP_DecryptUpdate` with padding disabled delegates to
`EVP_EncryptUpdate`. -/
theorem decUpdate_nopad (ctx : EVP_CIPHER_CTX) (hpad : ctx.pad = false)
    (input : List Nat) :
    EVP_DecryptUpdate ctx input = EVP_EncryptUpdate ctx input := by
  simp [EVP_DecryptUpdate, hpad]

/-- External `EVP_DecryptUpdate` with padding enabled on a fresh context and
exactly one block of ciphertext: deciphers it and holds it back for the
final unpad, emitting nothing. -/
theorem decUpdate_pad_single (ctx : EVP_CIPHER_CTX) (hbs : ctx.cipher.block_size = 16)
    (hpad : ctx.pad = true) (hfu : ctx.final_used = false) (hbuf : ctx.buf = [])
    (C : List Nat) (hC : C.length = 16)
    (hout : (do_cipher ctx C).1.length = 16) :
    EVP_DecryptUpdate ctx C =
      ([], { ctx with iv := (do_cipher ctx C).2.iv, buf := [], finalBlk := (do_cipher ctx C).1, final_used := true }) := by
  simp only [EVP_DecryptUpdate, hpad, hfu, Bool.not_true, Bool.false_eq_true, if_false]
  rw [evpUpdate_fresh ctx hbs hbuf C]
  rw [show C.length - C.length % 16 = C.length by rw [hC], List.take_length, List.drop_length]
  simp only [hbs, hout, List.length_nil]
  rw [if_pos (by simp)]
  simp only [hpad, Nat.sub_self, List.take_zero, List.drop_zero, List.nil_append,
    do_cipher_keeps_cipher, do_cipher_keeps_dir, do_cipher_keeps_pad,
    do_cipher_keeps_finalBlk, do_cipher_keeps_final_used]

/-- `EVP_DecryptFinal_relaxed` with padding disabled and no buffered bytes
succeeds with empty output. -/
theorem relaxed_nopad (ctx : EVP_CIPHER_CTX) (hpad : ctx.pad = false)
    (hbuf : ctx.buf = []) :
    EVP_DecryptFinal_relaxed ctx = .ok [] := by
  simp [EVP_DecryptFinal_relaxed, hpad, hbuf]

/-- `EVP_DecryptFinal_relaxed` with padding enabled on a held-back block:
trusts the padding length byte `n` and keeps the first `16 - n` bytes. -/
theorem relaxed_pad_ok (ctx : EVP_CIPHER_CTX) (hbs : ctx.cipher.block_size = 16)
    (hpad : ctx.pad = true) (hbuf : ctx.buf = []) (hfu : ctx.final_used = true)
    (n : Nat) (hn : ctx.finalBlk.getD 15 0 = n) (h1 : 1 ≤ n) (h2 : n ≤ 16) :
    EVP_DecryptFinal_relaxed ctx = .ok (ctx.finalBlk.take (16 - n)) := by
  simp only [EVP_DecryptFinal_relaxed, hpad, hbs, hbuf, List.length_nil]
  rw [if_neg (by simp)]
  rw [if_pos (by omega)]
  rw [if_neg (by simp [hfu])]
  rw [show (16 : Nat) - 1 = 15 from rfl, hn]
  rw [if_neg (by omega)]

/-! ### IV derivation facts -/

theorem memcpyAt_length (dst : List Nat) (off : Nat) (src : List Nat)
    (h : off + src.length ≤ dst.length) :
    (memcpyAt dst off src).length = dst.length := by
  simp only [memcpyAt, List.length_append, List.length_take, List.length_drop]
  omega

theorem setIVCopies_length (s : List Nat) (hs : s.length ≤ 6) :
    ∀ (n : Nat) (iv : List Nat), n * 6 ≤ iv.length →
    (setIVCopies s n iv).length = iv.length
  | 0, iv, _ => rfl
  | n + 1, iv, h => by
      have ih := setIVCopies_length s hs n iv (by omega)
      have hc : n * IV_SEQUENCE_LEN + s.length ≤ (setIVCopies s n iv).length := by
        rw [ih]; simp only [IV_SEQUENCE_LEN]; omega
      simp only [setIVCopies]
      rw [memcpyAt_length _ _ _ hc, ih]

/-- The engine always derives a 16-byte IV (for any sequence-value bytes). -/
theorem SetIV_length (seq : Option (List Nat)) : (SetIV seq 16).length = 16 := by
  cases seq with
  | none => simp [SetIV]
  | some s =>
      have hs : (s.take IV_SEQUENCE_LEN).length ≤ 6 := by
        simp [List.length_take, IV_SEQUENCE_LEN]
      have h2 := setIVCopies_length (s.take IV_SEQUENCE_LEN) hs (16 / IV_SEQUENCE_LEN)
        (List.replicate 16 0) (by simp [IV_SEQUENCE_LEN])
      simp only [SetIV]
      rw [if_pos (by simp [IV_SEQUENCE_LEN])]
      rw [memcpyAt_length]
      · rw [h2]; simp
      · rw [h2]
        simp only [List.length_take, List.length_replicate, IV_SEQUENCE_LEN]
        omega

/-! ### The keyed engine -/

/-- `SetKey` on a freshly constructed engine with a supported OID installs
the AES-CBC cipher in both directions. -/
theorem setKey_supported (A : AESFamily) (oid : String) (key : List Nat)
    (hoid : oid = OID_AES128 ∨ oid = OID_AES192 ∨ oid = OID_AES256) :
    (H235CryptoEngine.engineInit oid).SetKey A key =
      { m_algorithmOID := oid,
        m_ctx := some (freshCtx (aesCbcCipher A oid key) true, freshCtx (aesCbcCipher A oid key) false) } := by
  simp only [H235CryptoEngine.SetKey, H235CryptoEngine.engineInit]
  rw [if_pos hoid]

/-- RTP-native path: on a freshly keyed engine, a plaintext shorter than one
block is PKCS-padded to a single block, the `rtpPadding` out-flag is set,
and `Decrypt` with that flag recovers the plaintext. -/
theorem engine_pad_case (alg : String) (ci : EVP_CIPHER)
    (hci : GoodCipher ci) (hmode : ci.mode = CipherMode.cbc)
    (seq : Option (List Nat)) (P : List Nat) (hL : P.length < 16) :
    ((({ m_algorithmOID := alg, m_ctx := some (freshCtx ci true, freshCtx ci false) } : H235CryptoEngine).Encrypt P seq).engine.Decrypt
        (({ m_algorithmOID := alg, m_ctx := some (freshCtx ci true, freshCtx ci false) } : H235CryptoEngine).Encrypt P seq).ciphertext seq
        (({ m_algorithmOID := alg, m_ctx := some (freshCtx ci true, freshCtx ci false) } : H235CryptoEngine).Encrypt P seq).rtpPadding).plaintext = P ∧
    (({ m_algorithmOID := alg, m_ctx := some (freshCtx ci true, freshCtx ci false) } : H235CryptoEngine).Encrypt P seq).rtpPadding = true ∧
    (({ m_algorithmOID := alg, m_ctx := some (freshCtx ci true, freshCtx ci false) } : H235CryptoEngine).Encrypt P seq).ciphertext.length = 16 := by
  obtain ⟨hbs, hE, hD, hED⟩ := hci
  have hivlen : (SetIV seq 16).length = 16 := SetIV_length seq
  have hpadded_len : (P ++ List.replicate (16 - P.length) (16 - P.length)).length = 16 := by
    simp only [List.length_append, List.length_replicate]; omega
  have hxlen : (xorB (P ++ List.replicate (16 - P.length) (16 - P.length)) (SetIV seq 16)).length = 16 := by
    rw [xorB_length, hpadded_len, hivlen]; rfl
  have hCenc : (ci.enc (xorB (P ++ List.replicate (16 - P.length) (16 - P.length)) (SetIV seq 16))).length = 16 := hE _ hxlen
  have hflag : decide (P.length < 16) = true := decide_eq_true hL
  simp only [H235CryptoEngine.Encrypt]
  dsimp only [freshCtx, EVP_CipherInit_iv]
  simp only [hbs, hflag]
  rw [if_neg (by simp)]
  rw [evpUpdate_fresh _ hbs rfl P]
  rw [Nat.mod_eq_of_lt hL, Nat.sub_self, List.take_zero, do_cipher_nil, List.drop_zero]
  dsimp only
  rw [encFinalEx_pad _ hbs rfl]
  dsimp only
  rw [do_cipher_single _ _ hbs hpadded_len]
  dsimp only
  rw [blockStep_cbc_enc ci hmode]
  dsimp only
  simp only [List.nil_append]
  refine ⟨?_, by trivial, by exact hCenc⟩
  -- decrypt side
  simp only [H235CryptoEngine.Decrypt]
  dsimp only [freshCtx, EVP_CipherInit_iv]
  simp only [hbs]
  rw [if_neg (by simp)]
  have hDlen : (do_cipher
      { cipher := ci, encryptDir := false, pad := true, iv := SetIV seq 16, buf := [], finalBlk := List.replicate 16 0, final_used := false }
      (ci.enc (xorB (P ++ List.replicate (16 - P.length) (16 - P.length)) (SetIV seq 16)))).1.length = 16 := by
    rw [do_cipher_single _ _ hbs hCenc]
    dsimp only
    rw [blockStep_cbc_dec ci hmode]
    dsimp only
    rw [xorB_length, hD _ hCenc, hivlen]
    omega
  rw [decUpdate_pad_single _ hbs rfl rfl rfl _ hCenc hDlen]
  dsimp only
  have hDval : (do_cipher
      { cipher := ci, encryptDir := false, pad := true, iv := SetIV seq 16, buf := [], finalBlk := List.replicate 16 0, final_used := false }
      (ci.enc (xorB (P ++ List.replicate (16 - P.length) (16 - P.length)) (SetIV seq 16)))).1 =
      P ++ List.replicate (16 - P.length) (16 - P.length) := by
    rw [do_cipher_single _ _ hbs hCenc]
    dsimp only
    rw [blockStep_cbc_dec ci hmode]
    dsimp only
    rw [hED _ hxlen, xorB_cancel_right _ _ (by rw [hivlen, hpadded_len])]
  rw [hDval]
  have hgetd : (P ++ List.replicate (16 - P.length) (16 - P.length)).getD 15 0 = 16 - P.length := by
    rw [List.getD_append_right _ _ _ _ (by omega)]
    rw [List.getD_eq_getElem _ _ (by simp only [List.length_replicate]; omega)]
    simp
  rw [relaxed_pad_ok _ hbs rfl rfl rfl (16 - P.length) hgetd (by omega) (by omega)]
  dsimp only
  rw [show 16 - (16 - P.length) = P.length by omega]
  rw [List.take_left, List.nil_append]

/-- Aligned path: on a freshly keyed engine, a plaintext that is a whole
number of blocks passes through plain CBC with no padding: the flag is
clear, the ciphertext has the plaintext's length, and `Decrypt` inverts. -/
theorem engine_aligned_case (alg : String) (ci : EVP_CIPHER)
    (hci : GoodCipher ci) (hmode : ci.mode = CipherMode.cbc)
    (seq : Option (List Nat)) (P : List Nat) (hL : ¬ P.length < 16) (hM : P.length % 16 = 0) :
    ((({ m_algorithmOID := alg, m_ctx := some (freshCtx ci true, freshCtx ci false) } : H235CryptoEngine).Encrypt P seq).engine.Decrypt
        (({ m_algorithmOID := alg, m_ctx := some (freshCtx ci true, freshCtx ci false) } : H235CryptoEngine).Encrypt P seq).ciphertext seq
        (({ m_algorithmOID := alg, m_ctx := some (freshCtx ci true, freshCtx ci false) } : H235CryptoEngine).Encrypt P seq).rtpPadding).plaintext = P ∧
    (({ m_algorithmOID := alg, m_ctx := some (freshCtx ci true, freshCtx ci false) } : H235CryptoEngine).Encrypt P seq).rtpPadding = false ∧
    (({ m_algorithmOID := alg, m_ctx := some (freshCtx ci true, freshCtx ci false) } : H235CryptoEngine).Encrypt P seq).ciphertext.length = P.length := by
  obtain ⟨hbs, hE, hD, hED⟩ := hci
  have hci' : GoodCipher ci := ⟨hbs, hE, hD, hED⟩
  have hivlen : (SetIV seq 16).length = 16 := SetIV_length seq
  have hflag : decide (P.length < 16) = false := decide_eq_false hL
  have hPm : P.length = P.length / 16 * 16 := by omega
  have haux := doCipherAux_length ci hci' true (P.length / 16) (SetIV seq 16) P hivlen hPm
  simp only [H235CryptoEngine.Encrypt]
  dsimp only [freshCtx, EVP_CipherInit_iv]
  simp only [hbs, hflag]
  rw [if_neg (by simp [hM])]
  rw [evpUpdate_fresh _ hbs rfl P]
  rw [hM, Nat.sub_zero, List.take_length, List.drop_length]
  rw [do_cipher_eq _ P (P.length / 16) hbs hPm]
  dsimp only
  rw [encFinalEx_nopad _ rfl rfl]
  dsimp only
  simp only [List.append_nil]
  refine ⟨?_, by trivial, by rw [haux.1]; omega⟩
  -- decrypt side
  simp only [H235CryptoEngine.Decrypt]
  dsimp only [freshCtx, EVP_CipherInit_iv]
  simp only [hbs]
  rw [if_neg (fun hcon => by rw [haux.1] at hcon; omega)]
  rw [decUpdate_nopad _ rfl]
  rw [evpUpdate_fresh _ hbs rfl]
  have h0 : (doCipherAux ci true (P.length / 16) (SetIV seq 16) P).1.length % 16 = 0 := by
    rw [haux.1]; omega
  rw [h0, Nat.sub_zero, List.take_length, List.drop_length]
  rw [do_cipher_eq _ _ (P.length / 16) hbs (by rw [haux.1])]
  dsimp only
  rw [doCipherAux_cbc_roundtrip ci hci' hmode (P.length / 16) (SetIV seq 16) P hivlen hPm]
  dsimp only
  rw [relaxed_nopad _ rfl rfl]
  dsimp only
  rw [List.append_nil]

/-- Ciphertext-stealing path: on a freshly keyed engine, a plaintext longer
than one block but not block-aligned goes through the CTS codec: the flag is
clear, the ciphertext has exactly the plaintext's length, and `Decrypt`
inverts. -/
theorem engine_cts_case (alg : String) (ci : EVP_CIPHER)
    (hci : GoodCipher ci) (hmode : ci.mode = CipherMode.cbc)
    (seq : Option (List Nat)) (P : List Nat) (hL : ¬ P.length < 16) (hM : P.length % 16 ≠ 0) :
    ((({ m_algorithmOID := alg, m_ctx := some (freshCtx ci true, freshCtx ci false) } : H235CryptoEngine).Encrypt P seq).engine.Decrypt
        (({ m_algorithmOID := alg, m_ctx := some (freshCtx ci true, freshCtx ci false) } : H235CryptoEngine).Encrypt P seq).ciphertext seq
        (({ m_algorithmOID := alg, m_ctx := some (freshCtx ci true, freshCtx ci false) } : H235CryptoEngine).Encrypt P seq).rtpPadding).plaintext = P ∧
    (({ m_algorithmOID := alg, m_ctx := some (freshCtx ci true, freshCtx ci false) } : H235CryptoEngine).Encrypt P seq).rtpPadding = false ∧
    (({ m_algorithmOID := alg, m_ctx := some (freshCtx ci true, freshCtx ci false) } : H235CryptoEngine).Encrypt P seq).ciphertext.length = P.length := by
  obtain ⟨hbs, hE, hD, hED⟩ := hci
  have hci' : GoodCipher ci := ⟨hbs, hE, hD, hED⟩
  have hivlen : (SetIV seq 16).length = 16 := SetIV_length seq
  have hflag : decide (P.length < 16) = false := decide_eq_false hL
  obtain ⟨o2, c2, hEF, hlen, d2, e2, hDF, hround⟩ :=
    cts_roundtrip_ctx ci hci' hmode (SetIV seq 16) hivlen
      { cipher := ci, encryptDir := true, pad := false, iv := SetIV seq 16, buf := [], finalBlk := List.replicate 16 0, final_used := false }
      { cipher := ci, encryptDir := false, pad := false, iv := SetIV seq 16, buf := [], finalBlk := List.replicate 16 0, final_used := false }
      rfl rfl P (P.length / 16) (P.length % 16) (by omega) (by omega) (by omega) (by omega)
  simp only [H235CryptoEngine.Encrypt]
  dsimp only [freshCtx, EVP_CipherInit_iv]
  simp only [hbs, hflag]
  rw [if_pos ⟨by simp, by omega⟩]
  rw [hEF]
  dsimp only
  refine ⟨?_, by trivial, by exact hlen⟩
  -- decrypt side
  simp only [H235CryptoEngine.Decrypt]
  dsimp only [freshCtx, EVP_CipherInit_iv]
  simp only [hbs]
  rw [if_pos ⟨by simp, by rw [hlen]; omega⟩]
  rw [hDF]
  dsimp only
  exact hround

/-- Master round-trip fact for the engine: for every supported OID and every
key, sequence value and plaintext, `Decrypt` of `Encrypt` (with the
`rtpPadding` flag the encryption produced) recovers the plaintext; the flag
is set exactly for sub-block plaintexts; and the ciphertext length is one
block for sub-block plaintexts and the plaintext length otherwise. -/
theorem engine_roundtrip (A : AESFamily) (hA : GoodAES A) (oid : String)
    (hoid : oid = OID_AES128 ∨ oid = OID_AES192 ∨ oid = OID_AES256)
    (key : List Nat) (seq : Option (List Nat)) (P : List Nat) :
    ((((H235CryptoEngine.engineInit oid).SetKey A key).Encrypt P seq).engine.Decrypt
        (((H235CryptoEngine.engineInit oid).SetKey A key).Encrypt P seq).ciphertext seq
        (((H235CryptoEngine.engineInit oid).SetKey A key).Encrypt P seq).rtpPadding).plaintext = P ∧
    (((H235CryptoEngine.engineInit oid).SetKey A key).Encrypt P seq).rtpPadding = decide (P.length < 16) ∧
    (((H235CryptoEngine.engineInit oid).SetKey A key).Encrypt P seq).ciphertext.length =
      (if P.length < 16 then 16 else P.length) := by
  rw [setKey_supported A oid key hoid]
  by_cases h1 : P.length < 16
  · obtain ⟨ha, hb, hc⟩ := engine_pad_case oid (aesCbcCipher A oid key) (hA oid key) rfl seq P h1
    exact ⟨ha, by rw [hb, decide_eq_true h1], by rw [hc, if_pos h1]⟩
  · by_cases h2 : P.length % 16 = 0
    · obtain ⟨ha, hb, hc⟩ := engine_aligned_case oid (aesCbcCipher A oid key) (hA oid key) rfl seq P h1 h2
      exact ⟨ha, by rw [hb, decide_eq_false h1], by rw [hc, if_neg h1]⟩
    · obtain ⟨ha, hb, hc⟩ := engine_cts_case oid (aesCbcCipher A oid key) (hA oid key) rfl seq P h1 h2
      exact ⟨ha, by rw [hb, decide_eq_false h1], by rw [hc, if_neg h1]⟩

/-- The identity block transform is a well-behaved stand-in for AES. -/
theorem idAES_good : GoodAES idAES :=
  fun _ _ => ⟨rfl, fun _ h => h, fun _ h => h, fun _ _ => rfl⟩

/-- Length of `n` concatenated copies of a 6-byte sequence. -/
theorem flatten_replicate_length (s : List Nat) (hs : s.length = 6) (n : Nat) :
    ((List.replicate n s).flatten).length = n * 6 := by
  induction n with
  | zero => simp
  | succ k ih =>
      rw [List.replicate_succ, List.flatten_cons, List.length_append, ih, hs]
      omega

/-- Peeling one copy off the back of a replicated concatenation. -/
theorem flatten_replicate_succ (s : List Nat) (n : Nat) :
    (List.replicate (n + 1) s).flatten = (List.replicate n s).flatten ++ s := by
  rw [List.replicate_succ', List.flatten_append]
  simp

/-- The `SetIV` copy loop tiles the buffer: after `n` iterations the first
`n * 6` bytes are `n` copies of the sequence and the rest is untouched. -/
theorem setIVCopies_tiling (s : List Nat) (hs : s.length = 6) (n : Nat) (iv : List Nat) :
    setIVCopies s n iv = (List.replicate n s).flatten ++ iv.drop (n * 6) := by
  induction n with
  | zero => simp [setIVCopies]
  | succ k ih =>
      rw [show setIVCopies s (k + 1) iv =
            memcpyAt (setIVCopies s k iv) (k * IV_SEQUENCE_LEN) s from rfl, ih]
      simp only [memcpyAt, IV_SEQUENCE_LEN]
      rw [List.take_left' (flatten_replicate_length s hs k)]
      rw [hs]
      rw [List.drop_append_eq_append_drop]
      rw [List.drop_eq_nil_of_le (by rw [flatten_replicate_length s hs k]; omega)]
      rw [flatten_replicate_length s hs k]
      rw [show k * 6 + 6 - k * 6 = 6 from by omega]
      rw [List.drop_drop]
      rw [flatten_replicate_succ]
      rw [show k * 6 + 6 = (k + 1) * 6 from by omega]
      simp [List.append_assoc]

/-- Lengths produced by the block-cipher loop: output is `n * 16` bytes and
the running IV stays 16 bytes. -/
theorem do_cipher_ok_lengths (ctx : EVP_CIPHER_CTX) (hci : GoodCipher ctx.cipher)
    (hiv : ctx.iv.length = 16) (n : Nat) (input : List Nat) (hlen : input.length = n * 16) :
    (do_cipher ctx input).1.length = n * 16 ∧ (do_cipher ctx input).2.iv.length = 16 := by
  rw [do_cipher_eq ctx input n hci.1 hlen]
  exact doCipherAux_length ctx.cipher hci ctx.encryptDir n ctx.iv input hiv hlen

/-- In either supported mode (ECB or CBC), a CTS final with a pending final
block and `r` buffered bytes (`1 ≤ r ≤ 15`) succeeds and emits exactly
`16 + r` bytes. -/
theorem encFinalCts_ok_length (ctx : EVP_CIPHER_CTX) (hci : GoodCipher ctx.cipher)
    (hiv : ctx.iv.length = 16)
    (hmode : ctx.cipher.mode = CipherMode.ecb ∨ ctx.cipher.mode = CipherMode.cbc)
    (hfu : ctx.final_used = true) (hF : ctx.finalBlk.length = 16)
    (hb1 : 1 ≤ ctx.buf.length) (hb2 : ctx.buf.length ≤ 15) :
    ∃ o c2, EVP_EncryptFinal_cts ctx = .ok (o, c2) ∧ o.length = 16 + ctx.buf.length := by
  have hbs : ctx.cipher.block_size = 16 := hci.1
  obtain ⟨hp11, hp12⟩ := do_cipher_ok_lengths ctx hci hiv 1 ctx.finalBlk (by rw [hF])
  have hp11' : (do_cipher ctx ctx.finalBlk).1.length = 16 := hp11.trans (by omega)
  have hc2 : GoodCipher (do_cipher ctx ctx.finalBlk).2.cipher := by
    rw [do_cipher_keeps_cipher]; exact hci
  simp only [EVP_EncryptFinal_cts, hfu, hbs]
  rw [if_neg (by simp), if_neg (by omega)]
  rcases hmode with hm | hm
  · simp only [hm]
    refine ⟨_, _, rfl, ?_⟩
    have hbf : (ctx.buf ++
        ((do_cipher ctx ctx.finalBlk).1.drop ctx.buf.length).take (16 - ctx.buf.length)).length =
          1 * 16 := by
      rw [List.length_append, List.length_take, List.length_drop, hp11']; omega
    obtain ⟨hq1, _⟩ := do_cipher_ok_lengths (do_cipher ctx ctx.finalBlk).2 hc2 hp12 1 _ hbf
    rw [List.length_append, List.length_take, hp11', hq1]
    omega
  · simp only [hm]
    refine ⟨_, _, rfl, ?_⟩
    have hbf : (ctx.buf ++ List.replicate (16 - ctx.buf.length) 0).length = 1 * 16 := by
      rw [List.length_append, List.length_replicate]; omega
    obtain ⟨hq1, _⟩ := do_cipher_ok_lengths (do_cipher ctx ctx.finalBlk).2 hc2 hp12 1 _ hbf
    rw [List.length_append, List.length_take, hp11', hq1]
    omega

/-- `Decrypt` reads only the decrypt half of the context pair: two engines
sharing that half produce the same plaintext. -/
theorem decrypt_plaintext_congr (e1 e2 : H235CryptoEngine) (x1 x2 cd : EVP_CIPHER_CTX)
    (h1 : e1.m_ctx = some (x1, cd)) (h2 : e2.m_ctx = some (x2, cd))
    (data : List Nat) (seq : Option (List Nat)) (flag : Bool) :
    (e1.Decrypt data seq flag).plaintext = (e2.Decrypt data seq flag).plaintext := by
  simp only [H235CryptoEngine.Decrypt, h1, h2]
  split
  · split <;> rfl
  · split <;> rfl

/-- `Encrypt` never touches the decrypt half of the context pair. -/
theorem encrypt_keeps_decctx (e : H235CryptoEngine) (ce cd : EVP_CIPHER_CTX)
    (h : e.m_ctx = some (ce, cd)) (P : List Nat) (seq : Option (List Nat)) :
    ∃ x, (e.Encrypt P seq).engine.m_ctx = some (x, cd) := by
  simp only [H235CryptoEngine.Encrypt, h]
  split
  · split <;> exact ⟨_, rfl⟩
  · split <;> exact ⟨_, rfl⟩

/-- On a supported OID, `GenerateRandomKey` takes `keyLength` oracle bytes as
the key and installs it. -/
theorem generateRandomKey_supported (A : AESFamily) (rand : List Nat)
    (e : H235CryptoEngine) (oid : String) (he : e.m_algorithmOID = oid)
    (hoid : oid = OID_AES128 ∨ oid = OID_AES192 ∨ oid = OID_AES256) :
    e.GenerateRandomKey A rand =
      (rand.take (keyLength oid), e.SetKey A (rand.take (keyLength oid))) := by
  rcases hoid with h | h | h <;> subst h <;>
    simp +decide [H235CryptoEngine.GenerateRandomKey, keyLength, he]

/-! ### Claims -/

/-- C10: the incremental CTS decrypt-update operation is extensionally equal
to the CTS encrypt-update operation: for every context state and input
buffer, `EVP_DecryptUpdate_cts` produces exactly the same output bytes,
output length and resulting context state as `EVP_EncryptUpdate_cts`. -/
theorem claim_C10 (ctx : EVP_CIPHER_CTX) (input : List Nat) :
    EVP_DecryptUpdate_cts ctx input = EVP_EncryptUpdate_cts ctx input := rfl

/-- C9: `IsActive` returns the boolean negation of `IsInitialised`; and
immediately after `CreateSession` (which sets the initialised flag),
`IsActive` is false and `IsInitialised` is true. -/
theorem claim_C9 (s : H235Session) (A : AESFamily) (rand : List Nat) (isMaster : Bool) :
    s.IsActive = !s.IsInitialised ∧
    (s.CreateSession A rand isMaster).IsInitialised = true ∧
    (s.CreateSession A rand isMaster).IsActive = false := by
  refine ⟨rfl, ?_, ?_⟩ <;>
    cases isMaster <;>
      simp [H235Session.CreateSession, H235Session.IsInitialised, H235Session.IsActive]

/-- C8 (code evaluation at the failing input): `SetKey` with an unsupported
algorithm OID leaves the engine completely unchanged — in particular still
unkeyed — and, being `void` in the C source, reports nothing to the caller;
the subsequent `Encrypt` has no error channel in its result type. -/
theorem claim_C8_setkey_silent (A : AESFamily) (key data : List Nat)
    (seq : Option (List Nat)) :
    (H235CryptoEngine.engineInit "1.2.3").SetKey A key =
      H235CryptoEngine.engineInit "1.2.3" ∧
    ((H235CryptoEngine.engineInit "1.2.3").SetKey A key).m_ctx = none ∧
    (((H235CryptoEngine.engineInit "1.2.3").SetKey A key).Encrypt data seq).ciphertext = [] ∧
    (((H235CryptoEngine.engineInit "1.2.3").SetKey A key).Encrypt data seq).rtpPadding = false := by
  have h : (H235CryptoEngine.engineInit "1.2.3").SetKey A key =
      H235CryptoEngine.engineInit "1.2.3" := by
    simp only [H235CryptoEngine.SetKey, H235CryptoEngine.engineInit]
    rw [if_neg (by decide)]
  refine ⟨h, ?_, ?_, ?_⟩ <;> rw [h] <;> rfl

/-- C4: the relaxed final-block decode trusts the padding-length byte `n`
read from the last position of the final block: when `1 ≤ n ≤ block_size` it
succeeds and returns exactly the first `block_size - n` bytes of the final
block regardless of the padding bytes' values, and it fails with the
bad-padding error exactly when `n = 0` or `n > block_size`. -/
theorem claim_C4 (ctx : EVP_CIPHER_CTX) (hpad : ctx.pad = true)
    (hb : 1 < ctx.cipher.block_size) (hbuf : ctx.buf = [])
    (hfu : ctx.final_used = true)
    (hlen : ctx.finalBlk.length = ctx.cipher.block_size) :
    (1 ≤ ctx.finalBlk.getD (ctx.cipher.block_size - 1) 0 ∧
        ctx.finalBlk.getD (ctx.cipher.block_size - 1) 0 ≤ ctx.cipher.block_size →
      EVP_DecryptFinal_relaxed ctx =
        .ok (ctx.finalBlk.take
          (ctx.cipher.block_size - ctx.finalBlk.getD (ctx.cipher.block_size - 1) 0))) ∧
    (EVP_DecryptFinal_relaxed ctx = .error .badPadding ↔
      (ctx.finalBlk.getD (ctx.cipher.block_size - 1) 0 = 0 ∨
        ctx.cipher.block_size < ctx.finalBlk.getD (ctx.cipher.block_size - 1) 0)) := by
  simp only [EVP_DecryptFinal_relaxed, hpad, hbuf, List.length_nil]
  rw [if_neg (by simp)]
  rw [if_pos hb]
  rw [if_neg (by simp [hfu])]
  constructor
  · intro h
    rw [if_neg (by omega)]
  · by_cases hc : ctx.finalBlk.getD (ctx.cipher.block_size - 1) 0 = 0 ∨
        ctx.cipher.block_size < ctx.finalBlk.getD (ctx.cipher.block_size - 1) 0
    · rw [if_pos hc]
      simpa using hc
    · rw [if_neg hc]
      constructor
      · intro h
        exact absurd h (by simp)
      · intro h
        exact absurd h hc

/-- Witness for C4: a 16-byte final block whose padding bytes are filled
inconsistently but whose length byte is 4 decodes to its first 12 bytes; a
length byte of 0 or 17 is rejected as bad padding. -/
theorem claim_C4_witness :
    (({ cipher := { block_size := 16, mode := CipherMode.cbc, enc := fun b => b, dec := fun b => b },
        encryptDir := false, pad := true, iv := [], buf := [],
        finalBlk := [9, 8, 7, 6, 5, 4, 3, 2, 1, 0, 9, 8, 7, 255, 255, 4],
        final_used := true } : EVP_CIPHER_CTX).pad = true ∧
      [9, 8, 7, 6, 5, 4, 3, 2, 1, 0, 9, 8, 7, 255, 255, 4].length = 16) ∧
    EVP_DecryptFinal_relaxed
      { cipher := { block_size := 16, mode := CipherMode.cbc, enc := fun b => b, dec := fun b => b },
        encryptDir := false, pad := true, iv := [], buf := [],
        finalBlk := [9, 8, 7, 6, 5, 4, 3, 2, 1, 0, 9, 8, 7, 255, 255, 4],
        final_used := true } = .ok [9, 8, 7, 6, 5, 4, 3, 2, 1, 0, 9, 8] := by
  refine ⟨⟨rfl, rfl⟩, ?_⟩
  have h := (claim_C4
    { cipher := { block_size := 16, mode := CipherMode.cbc, enc := fun b => b, dec := fun b => b },
      encryptDir := false, pad := true, iv := [], buf := [],
      finalBlk := [9, 8, 7, 6, 5, 4, 3, 2, 1, 0, 9, 8, 7, 255, 255, 4],
      final_used := true } rfl (by decide) rfl rfl (by decide)).1 (by decide)
  rw [h]
  rfl

/-- C7: on every context, the CTS finals (encrypt and decrypt) fail with the
missing-state error whenever no final block is pending or the partial buffer
is empty; with a pending final block and a non-empty buffer, every cipher
mode other than ECB and CBC fails with the unsupported-mode error.  In all
these failure cases no output bytes are produced (the error carries none). -/
theorem claim_C7 (ctx : EVP_CIPHER_CTX) :
    ((ctx.final_used = false ∨ ctx.buf = []) →
      EVP_EncryptFinal_cts ctx = .error .missingState ∧
      EVP_DecryptFinal_cts ctx = .error .missingState) ∧
    (ctx.final_used = true → ctx.buf ≠ [] → ctx.cipher.mode = CipherMode.other →
      EVP_EncryptFinal_cts ctx = .error .unsupportedMode ∧
      EVP_DecryptFinal_cts ctx = .error .unsupportedMode) := by
  constructor
  · rintro (hfu | hbuf)
    · constructor <;>
        · simp only [EVP_EncryptFinal_cts, EVP_DecryptFinal_cts, hfu]
          simp
    · cases hfu : ctx.final_used <;>
        constructor <;>
          · simp only [EVP_EncryptFinal_cts, EVP_DecryptFinal_cts, hfu, hbuf]
            simp
  · intro hfu hbuf hmode
    have hlen : ctx.buf.length ≠ 0 := fun h => hbuf (List.eq_nil_of_length_eq_zero h)
    constructor <;>
      · simp only [EVP_EncryptFinal_cts, EVP_DecryptFinal_cts, hfu, hmode]
        rw [if_neg (by simp), if_neg hlen]

/-- Witness for C7: a context with no pending final block fails with the
missing-state error, and a context in the unsupported `other` mode with
valid pending state fails with the unsupported-mode error, in both
directions. -/
theorem claim_C7_witness :
    (EVP_EncryptFinal_cts
        { cipher := { block_size := 16, mode := CipherMode.cbc, enc := fun b => b, dec := fun b => b },
          encryptDir := true, pad := false, iv := [], buf := [3], finalBlk := [],
          final_used := false } = .error .missingState ∧
      EVP_DecryptFinal_cts
        { cipher := { block_size := 16, mode := CipherMode.cbc, enc := fun b => b, dec := fun b => b },
          encryptDir := true, pad := false, iv := [], buf := [3], finalBlk := [],
          final_used := false } = .error .missingState) ∧
    (EVP_EncryptFinal_cts
        { cipher := { block_size := 16, mode := CipherMode.other, enc := fun b => b, dec := fun b => b },
          encryptDir := true, pad := false, iv := [], buf := [3],
          finalBlk := List.replicate 16 0, final_used := true } = .error .unsupportedMode ∧
      EVP_DecryptFinal_cts
        { cipher := { block_size := 16, mode := CipherMode.other, enc := fun b => b, dec := fun b => b },
          encryptDir := true, pad := false, iv := [], buf := [3],
          finalBlk := List.replicate 16 0, final_used := true } = .error .unsupportedMode) :=
  ⟨(claim_C7 _).1 (Or.inl rfl), (claim_C7 _).2 rfl (by simp) rfl⟩

/-- C6: `SetIV` with a 6-byte sequence value fills an `L`-byte IV with
`L / 6` whole copies of the sequence followed by its first `L % 6` bytes;
with no sequence value the IV is the `L` bytes the caller's buffer held,
modelled as zeroes. -/
theorem claim_C6 (s : List Nat) (hs : s.length = 6) (L : Nat) :
    SetIV (some s) L = (List.replicate (L / 6) s).flatten ++ s.take (L % 6) ∧
    SetIV none L = List.replicate L 0 := by
  refine ⟨?_, rfl⟩
  simp only [SetIV, IV_SEQUENCE_LEN]
  rw [List.take_of_length_le (by omega)]
  rw [setIVCopies_tiling s hs (L / 6) (List.replicate L 0)]
  by_cases hmod : L % 6 > 0
  · rw [if_pos hmod]
    simp only [memcpyAt]
    rw [show L - L % 6 = L / 6 * 6 from by omega]
    rw [List.take_left' (flatten_replicate_length s hs (L / 6))]
    rw [show (s.take (L % 6)).length = L % 6 from by rw [List.length_take]; omega]
    rw [List.drop_append_eq_append_drop]
    rw [List.drop_eq_nil_of_le (by rw [flatten_replicate_length s hs (L / 6)]; omega)]
    rw [flatten_replicate_length s hs (L / 6)]
    rw [show L / 6 * 6 + L % 6 - L / 6 * 6 = L % 6 from by omega]
    rw [List.drop_drop]
    rw [show L / 6 * 6 + L % 6 = L from by omega]
    rw [List.drop_eq_nil_of_le (by simp)]
    simp
  · rw [if_neg hmod]
    have h0 : L % 6 = 0 := by omega
    rw [show L / 6 * 6 = L from by omega]
    rw [List.drop_eq_nil_of_le (by simp)]
    rw [h0]
    simp

/-- Witness for C6: a 16-byte IV built from the sequence `[1,2,3,4,5,6]` is
two whole copies followed by the first four bytes. -/
theorem claim_C6_witness :
    ([1, 2, 3, 4, 5, 6] : List Nat).length = 6 ∧
    SetIV (some [1, 2, 3, 4, 5, 6]) 16 =
      (List.replicate (16 / 6) ([1, 2, 3, 4, 5, 6] : List Nat)).flatten ++
        ([1, 2, 3, 4, 5, 6] : List Nat).take (16 % 6) ∧
    SetIV none 16 = List.replicate 16 0 :=
  ⟨rfl, (claim_C6 [1, 2, 3, 4, 5, 6] rfl 16).1, (claim_C6 [1, 2, 3, 4, 5, 6] rfl 16).2⟩

/-- C3: for every plaintext of length `L ≥ 16` with `L % 16 ≠ 0`, the
ciphertext-stealing path (CTS update on a fresh context followed by CTS
final) succeeds and the total ciphertext length equals `L` exactly, in both
ECB and CBC modes. -/
theorem claim_C3 (ci : EVP_CIPHER) (hci : GoodCipher ci)
    (hmode : ci.mode = CipherMode.ecb ∨ ci.mode = CipherMode.cbc)
    (dir pd : Bool) (iv0 : List Nat) (hiv : iv0.length = 16)
    (P : List Nat) (h16 : 16 ≤ P.length) (hM : P.length % 16 ≠ 0) :
    ∃ o2 c2,
      EVP_EncryptFinal_cts
          (EVP_EncryptUpdate_cts
            { cipher := ci, encryptDir := dir, pad := pd, iv := iv0, buf := [],
              finalBlk := List.replicate 16 0, final_used := false } P).2 = .ok (o2, c2) ∧
      ((EVP_EncryptUpdate_cts
            { cipher := ci, encryptDir := dir, pad := pd, iv := iv0, buf := [],
              finalBlk := List.replicate 16 0, final_used := false } P).1 ++ o2).length =
        P.length := by
  have hbs : ci.block_size = 16 := hci.1
  have hr1 : 1 ≤ P.length % 16 := by omega
  have hr2 : P.length % 16 ≤ 15 := by omega
  have hm1 : 1 ≤ P.length / 16 := by omega
  have hP : P.length = (P.length / 16) * 16 + P.length % 16 := by omega
  have hEU := ctsUpdate_fresh
    { cipher := ci, encryptDir := dir, pad := pd, iv := iv0, buf := [],
      finalBlk := List.replicate 16 0, final_used := false } hbs rfl rfl P
    (P.length / 16) (P.length % 16) hP hm1 hr1 hr2
  rw [hEU]
  dsimp only
  have hupd := do_cipher_ok_lengths
    { cipher := ci, encryptDir := dir, pad := pd, iv := iv0, buf := [],
      finalBlk := List.replicate 16 0, final_used := false } hci hiv (P.length / 16 - 1)
    (P.take ((P.length / 16 - 1) * 16)) (by rw [List.length_take]; omega)
  obtain ⟨o2, c2, hfin, hlen2⟩ := encFinalCts_ok_length
    { cipher := ci, encryptDir := dir, pad := pd,
      iv := (do_cipher
        { cipher := ci, encryptDir := dir, pad := pd, iv := iv0, buf := [],
          finalBlk := List.replicate 16 0, final_used := false }
        (P.take ((P.length / 16 - 1) * 16))).2.iv,
      buf := P.drop (P.length / 16 * 16),
      finalBlk := (P.drop ((P.length / 16 - 1) * 16)).take 16, final_used := true }
    hci hupd.2 hmode rfl
    (by rw [List.length_take, List.length_drop]; omega)
    (by rw [List.length_drop]; omega)
    (by rw [List.length_drop]; omega)
  refine ⟨o2, c2, hfin, ?_⟩
  rw [List.length_append, hlen2, hupd.1]
  simp only [List.length_drop]
  omega

/-- Witness for C3: a 24-byte plaintext through the CBC CTS path yields a
24-byte ciphertext. -/
theorem claim_C3_witness :
    GoodCipher { block_size := 16, mode := CipherMode.cbc, enc := fun b => b, dec := fun b => b } ∧
    (List.replicate 16 0 : List Nat).length = 16 ∧
    16 ≤ (List.replicate 24 7 : List Nat).length ∧
    (List.replicate 24 7 : List Nat).length % 16 ≠ 0 ∧
    (∃ o2 c2,
      EVP_EncryptFinal_cts
          (EVP_EncryptUpdate_cts
            { cipher := { block_size := 16, mode := CipherMode.cbc, enc := fun b => b, dec := fun b => b },
              encryptDir := true, pad := false, iv := List.replicate 16 0, buf := [],
              finalBlk := List.replicate 16 0, final_used := false }
            (List.replicate 24 7)).2 = .ok (o2, c2) ∧
      ((EVP_EncryptUpdate_cts
            { cipher := { block_size := 16, mode := CipherMode.cbc, enc := fun b => b, dec := fun b => b },
              encryptDir := true, pad := false, iv := List.replicate 16 0, buf := [],
              finalBlk := List.replicate 16 0, final_used := false }
            (List.replicate 24 7)).1 ++ o2).length = (List.replicate 24 7 : List Nat).length) :=
  ⟨⟨rfl, fun _ h => h, fun _ h => h, fun _ _ => rfl⟩, by simp, by simp, by simp,
    claim_C3 _ ⟨rfl, fun _ h => h, fun _ h => h, fun _ _ => rfl⟩ (Or.inr rfl) true false
      _ (by simp) _ (by simp) (by simp)⟩

/-- C1: for every supported algorithm (AES128, AES192, AES256), every key of
the algorithm's key length, every 6-byte sequence value, and every plaintext
`P` whose length lies in `{1, 15, 16, 17, 31, 32, 33, 1024}`, decrypting the
encryption with the `rtpPadding` flag `Encrypt` produced returns exactly
`P`. -/
theorem claim_C1 (A : AESFamily) (hA : GoodAES A) (oid : String)
    (hoid : oid = OID_AES128 ∨ oid = OID_AES192 ∨ oid = OID_AES256)
    (key : List Nat) (hkey : key.length = keyLength oid)
    (seq : List Nat) (hseq : seq.length = 6)
    (P : List Nat) (hP : P.length ∈ ([1, 15, 16, 17, 31, 32, 33, 1024] : List Nat)) :
    ((((H235CryptoEngine.engineInit oid).SetKey A key).Encrypt P (some seq)).engine.Decrypt
        (((H235CryptoEngine.engineInit oid).SetKey A key).Encrypt P (some seq)).ciphertext
        (some seq)
        (((H235CryptoEngine.engineInit oid).SetKey A key).Encrypt P (some seq)).rtpPadding).plaintext
      = P :=
  (engine_roundtrip A hA oid hoid key (some seq) P).1

/-- Witness for C1: AES128 (as the abstract identity transform), an all-zero
16-byte key, the sequence value `[1,1,1,1,1,1]` and a 16-byte plaintext
round-trip exactly. -/
theorem claim_C1_witness :
    GoodAES idAES ∧
    (List.replicate 16 0 : List Nat).length = keyLength OID_AES128 ∧
    (List.replicate 6 1 : List Nat).length = 6 ∧
    (List.replicate 16 65 : List Nat).length ∈ ([1, 15, 16, 17, 31, 32, 33, 1024] : List Nat) ∧
    ((((H235CryptoEngine.engineInit OID_AES128).SetKey idAES
          (List.replicate 16 0)).Encrypt (List.replicate 16 65)
          (some (List.replicate 6 1))).engine.Decrypt
        (((H235CryptoEngine.engineInit OID_AES128).SetKey idAES
          (List.replicate 16 0)).Encrypt (List.replicate 16 65)
          (some (List.replicate 6 1))).ciphertext
        (some (List.replicate 6 1))
        (((H235CryptoEngine.engineInit OID_AES128).SetKey idAES
          (List.replicate 16 0)).Encrypt (List.replicate 16 65)
          (some (List.replicate 6 1))).rtpPadding).plaintext = List.replicate 16 65 := by
  have hkey : (List.replicate 16 0 : List Nat).length = keyLength OID_AES128 := by
    rw [List.length_replicate]
    unfold keyLength
    rw [if_pos rfl]
  have hseq : (List.replicate 6 1 : List Nat).length = 6 := by simp
  have hP : (List.replicate 16 65 : List Nat).length ∈
      ([1, 15, 16, 17, 31, 32, 33, 1024] : List Nat) := by simp
  exact ⟨idAES_good, hkey, hseq, hP,
    claim_C1 idAES idAES_good OID_AES128 (Or.inl rfl) _ hkey _ hseq _ hP⟩

/-- C5: for every plaintext of length `L < 16`, `Encrypt` reports
`rtpPadding = true` and returns exactly one block of ciphertext, and
`Decrypt` of that ciphertext with `rtpPadding = true` recovers the original
`L` bytes. -/
theorem claim_C5 (A : AESFamily) (hA : GoodAES A) (oid : String)
    (hoid : oid = OID_AES128 ∨ oid = OID_AES192 ∨ oid = OID_AES256)
    (key : List Nat) (seq : Option (List Nat)) (P : List Nat) (hL : P.length < 16) :
    (((H235CryptoEngine.engineInit oid).SetKey A key).Encrypt P seq).rtpPadding = true ∧
    (((H235CryptoEngine.engineInit oid).SetKey A key).Encrypt P seq).ciphertext.length = 16 ∧
    ((((H235CryptoEngine.engineInit oid).SetKey A key).Encrypt P seq).engine.Decrypt
        (((H235CryptoEngine.engineInit oid).SetKey A key).Encrypt P seq).ciphertext seq
        true).plaintext = P := by
  obtain ⟨h1, h2, h3⟩ := engine_roundtrip A hA oid hoid key seq P
  have hflag : (((H235CryptoEngine.engineInit oid).SetKey A key).Encrypt P seq).rtpPadding
      = true := by rw [h2]; exact decide_eq_true hL
  refine ⟨hflag, by rw [h3, if_pos hL], ?_⟩
  rw [← hflag]
  exact h1

/-- Witness for C5: a 3-byte plaintext under AES128 (as the abstract
identity transform) pads to one 16-byte block and decrypts back with the
padding flag set. -/
theorem claim_C5_witness :
    GoodAES idAES ∧ ([10, 20, 30] : List Nat).length < 16 ∧
    (((H235CryptoEngine.engineInit OID_AES128).SetKey idAES
        (List.replicate 16 0)).Encrypt [10, 20, 30] none).rtpPadding = true ∧
    (((H235CryptoEngine.engineInit OID_AES128).SetKey idAES
        (List.replicate 16 0)).Encrypt [10, 20, 30] none).ciphertext.length = 16 ∧
    ((((H235CryptoEngine.engineInit OID_AES128).SetKey idAES
        (List.replicate 16 0)).Encrypt [10, 20, 30] none).engine.Decrypt
        (((H235CryptoEngine.engineInit OID_AES128).SetKey idAES
          (List.replicate 16 0)).Encrypt [10, 20, 30] none).ciphertext none
        true).plaintext = [10, 20, 30] := by
  obtain ⟨h1, h2, h3⟩ := claim_C5 idAES idAES_good OID_AES128 (Or.inl rfl)
    (List.replicate 16 0) none [10, 20, 30] (by simp)
  exact ⟨idAES_good, by simp, h1, h2, h3⟩

/-- C2 (amended): for two sessions over the same DH shared secret and the
same supported algorithm OID, master `CreateSession true` and slave
`CreateSession false`, feeding the master's `EncodeMediaKey` output to the
slave's `DecodeMediaKey` leaves both sides holding identical media-key
bytes; and for every frame payload of length at least one block (16 bytes,
where the frame's RTP padding bit is clear, as `WriteFrame` never sets it),
the master's `WriteFrame` followed by the slave's `ReadFrame` recovers the
original payload.  (The original claim, quantified over *every* payload, is
false: payloads shorter than one block are refuted by
`claim_C2_counterexample`, because `WriteFrame` discards the `rtpPadding`
flag that `ReadFrame` would need.) -/
theorem claim_C2 (A : AESFamily) (hA : GoodAES A) (oid : String)
    (hoid : oid = OID_AES128 ∨ oid = OID_AES192 ∨ oid = OID_AES256)
    (secret rand : List Nat) (hrand : keyLength oid ≤ rand.length)
    (Q : List Nat) (hQ : 16 ≤ Q.length) :
    (((H235Session.sessionInit secret oid).CreateSession A [] false).DecodeMediaKey A
        ((((H235Session.sessionInit secret oid).CreateSession A rand
          true).EncodeMediaKey).1)).m_crytoMasterKey =
      ((((H235Session.sessionInit secret oid).CreateSession A rand
        true).EncodeMediaKey).2).m_crytoMasterKey ∧
    ((((H235Session.sessionInit secret oid).CreateSession A [] false).DecodeMediaKey A
        ((((H235Session.sessionInit secret oid).CreateSession A rand
          true).EncodeMediaKey).1)).ReadFrame
      ((((H235Session.sessionInit secret oid).CreateSession A rand
        true).EncodeMediaKey).2.WriteFrame
          { payload := Q, padding := false }).2).2.payload = Q := by
  have hks : keyLength oid = 16 ∨ keyLength oid = 24 ∨ keyLength oid = 32 := by
    rcases hoid with h | h | h <;> subst h
    · exact Or.inl (by decide)
    · exact Or.inr (Or.inl (by decide))
    · exact Or.inr (Or.inr (by decide))
  have hmkl : (rand.take (keyLength oid)).length = keyLength oid := by
    rw [List.length_take]; omega
  have hmk16 : ¬((rand.take (keyLength oid)).length < 16) := by
    rw [hmkl]; rcases hks with h | h | h <;> omega
  have hm0 : (H235Session.sessionInit secret oid).CreateSession A rand true =
      { m_dhSharedSecret := secret,
        m_context := (H235CryptoEngine.engineInit oid).SetKey A (rand.take (keyLength oid)),
        m_dhcontext := (H235CryptoEngine.engineInit oid).SetKey A secret,
        m_isInitialised := true, m_isMaster := true, m_dhSessionkey := secret,
        m_crytoMasterKey := rand.take (keyLength oid) } := by
    simp only [H235Session.CreateSession, H235Session.sessionInit]
    rw [if_pos trivial]
    rw [generateRandomKey_supported A rand _ oid rfl hoid]
  have hs0 : (H235Session.sessionInit secret oid).CreateSession A [] false =
      { m_dhSharedSecret := secret,
        m_context := H235CryptoEngine.engineInit oid,
        m_dhcontext := (H235CryptoEngine.engineInit oid).SetKey A secret,
        m_isInitialised := true, m_isMaster := false, m_dhSessionkey := secret,
        m_crytoMasterKey := [] } := by
    simp only [H235Session.CreateSession, H235Session.sessionInit]
    rw [if_neg (by simp)]
  have hRT := engine_roundtrip A hA oid hoid secret none (rand.take (keyLength oid))
  have hflag : (((H235CryptoEngine.engineInit oid).SetKey A secret).Encrypt
      (rand.take (keyLength oid)) none).rtpPadding = false := by
    rw [hRT.2.1]; exact decide_eq_false hmk16
  have hRT1 := hRT.1
  rw [hflag] at hRT1
  have hEdh : ((H235CryptoEngine.engineInit oid).SetKey A secret).m_ctx =
      some (freshCtx (aesCbcCipher A oid secret) true,
        freshCtx (aesCbcCipher A oid secret) false) := by
    rw [setKey_supported A oid secret hoid]
  obtain ⟨x, hx⟩ := encrypt_keeps_decctx _ _ _ hEdh (rand.take (keyLength oid)) none
  have hdec : (((H235CryptoEngine.engineInit oid).SetKey A secret).Decrypt
      ((((H235CryptoEngine.engineInit oid).SetKey A secret).Encrypt
        (rand.take (keyLength oid)) none).ciphertext) none false).plaintext =
      rand.take (keyLength oid) := by
    rw [decrypt_plaintext_congr ((H235CryptoEngine.engineInit oid).SetKey A secret)
      ((((H235CryptoEngine.engineInit oid).SetKey A secret).Encrypt
        (rand.take (keyLength oid)) none).engine)
      (freshCtx (aesCbcCipher A oid secret) true) x
      (freshCtx (aesCbcCipher A oid secret) false) hEdh hx _ none false]
    exact hRT1
  have hek1 : (((H235Session.sessionInit secret oid).CreateSession A rand
      true).EncodeMediaKey).1 =
      (((H235CryptoEngine.engineInit oid).SetKey A secret).Encrypt
        (rand.take (keyLength oid)) none).ciphertext := by
    rw [hm0]
    rfl
  have hm1k : ((((H235Session.sessionInit secret oid).CreateSession A rand
      true).EncodeMediaKey).2).m_crytoMasterKey = rand.take (keyLength oid) := by
    rw [hm0]
    rfl
  have hm1c : ((((H235Session.sessionInit secret oid).CreateSession A rand
      true).EncodeMediaKey).2).m_context =
      (H235CryptoEngine.engineInit oid).SetKey A (rand.take (keyLength oid)) := by
    rw [hm0]
    rfl
  have hs1k : (((H235Session.sessionInit secret oid).CreateSession A [] false).DecodeMediaKey A
      ((((H235Session.sessionInit secret oid).CreateSession A rand
        true).EncodeMediaKey).1)).m_crytoMasterKey = rand.take (keyLength oid) := by
    rw [hek1, hs0]
    simp only [H235Session.DecodeMediaKey]
    exact hdec
  have hs1c : (((H235Session.sessionInit secret oid).CreateSession A [] false).DecodeMediaKey A
      ((((H235Session.sessionInit secret oid).CreateSession A rand
        true).EncodeMediaKey).1)).m_context =
      (H235CryptoEngine.engineInit oid).SetKey A (rand.take (keyLength oid)) := by
    rw [hek1, hs0]
    simp only [H235Session.DecodeMediaKey]
    rw [hdec]
  refine ⟨by rw [hs1k, hm1k], ?_⟩
  have hRT2 := engine_roundtrip A hA oid hoid (rand.take (keyLength oid)) none Q
  have hflagQ : (((H235CryptoEngine.engineInit oid).SetKey A
      (rand.take (keyLength oid))).Encrypt Q none).rtpPadding = false := by
    rw [hRT2.2.1]; exact decide_eq_false (by omega)
  have hRT2' := hRT2.1
  rw [hflagQ] at hRT2'
  have hEc : ((H235CryptoEngine.engineInit oid).SetKey A
      (rand.take (keyLength oid))).m_ctx =
      some (freshCtx (aesCbcCipher A oid (rand.take (keyLength oid))) true,
        freshCtx (aesCbcCipher A oid (rand.take (keyLength oid))) false) := by
    rw [setKey_supported A oid _ hoid]
  obtain ⟨y, hy⟩ := encrypt_keeps_decctx _ _ _ hEc Q none
  simp only [H235Session.WriteFrame, H235Session.ReadFrame]
  rw [hm1c, hs1c]
  rw [decrypt_plaintext_congr ((H235CryptoEngine.engineInit oid).SetKey A
      (rand.take (keyLength oid)))
    ((((H235CryptoEngine.engineInit oid).SetKey A
      (rand.take (keyLength oid))).Encrypt Q none).engine)
    (freshCtx (aesCbcCipher A oid (rand.take (keyLength oid))) true) y
    (freshCtx (aesCbcCipher A oid (rand.take (keyLength oid))) false) hEc hy _ none false]
  exact hRT2'

/-- Witness for C2: with the identity transform for AES128, a 16-byte shared
secret, 16 oracle bytes for the media key and a 16-byte payload, both sides
hold the same media key and the frame round-trips. -/
theorem claim_C2_witness :
    GoodAES idAES ∧
    keyLength OID_AES128 ≤ (List.replicate 16 1 : List Nat).length ∧
    16 ≤ (List.replicate 16 65 : List Nat).length ∧
    ((((H235Session.sessionInit (List.replicate 16 2) OID_AES128).CreateSession idAES []
        false).DecodeMediaKey idAES
        ((((H235Session.sessionInit (List.replicate 16 2) OID_AES128).CreateSession idAES
          (List.replicate 16 1) true).EncodeMediaKey).1)).m_crytoMasterKey =
      ((((H235Session.sessionInit (List.replicate 16 2) OID_AES128).CreateSession idAES
        (List.replicate 16 1) true).EncodeMediaKey).2).m_crytoMasterKey ∧
    ((((H235Session.sessionInit (List.replicate 16 2) OID_AES128).CreateSession idAES []
        false).DecodeMediaKey idAES
        ((((H235Session.sessionInit (List.replicate 16 2) OID_AES128).CreateSession idAES
          (List.replicate 16 1) true).EncodeMediaKey).1)).ReadFrame
      ((((H235Session.sessionInit (List.replicate 16 2) OID_AES128).CreateSession idAES
        (List.replicate 16 1) true).EncodeMediaKey).2.WriteFrame
          { payload := List.replicate 16 65, padding := false }).2).2.payload =
      List.replicate 16 65) :=
  ⟨idAES_good, by decide, by simp,
    claim_C2 idAES idAES_good OID_AES128 (Or.inl rfl) (List.replicate 16 2)
      (List.replicate 16 1) (by decide) (List.replicate 16 65) (by simp)⟩

/-- Counterexample to C2 as stated: with the identity transform for AES128,
after the full handshake, a 1-byte payload `[65]` does *not* survive the
master's `WriteFrame` followed by the slave's `ReadFrame` — `WriteFrame`
PKCS-pads it to a full block but discards the `rtpPadding` flag, so
`ReadFrame` decrypts without depadding and returns 16 bytes. -/
theorem claim_C2_counterexample :
    ((((H235Session.sessionInit (List.replicate 16 2) OID_AES128).CreateSession idAES []
        false).DecodeMediaKey idAES
        ((((H235Session.sessionInit (List.replicate 16 2) OID_AES128).CreateSession idAES
          (List.replicate 16 1) true).EncodeMediaKey).1)).ReadFrame
      ((((H235Session.sessionInit (List.replicate 16 2) OID_AES128).CreateSession idAES
        (List.replicate 16 1) true).EncodeMediaKey).2.WriteFrame
          { payload := [65], padding := false }).2).2.payload ≠ [65] := by
  decide

end H235
